import Mathlib

/-!
# ADXL345 accelerometer driver: register-level protocol

A shallow embedding of `adxl345.cpp` / `accelerometer_adxl345.h`.

Modelling conventions.

* The mbed `I2C` class is an external collaborator.  It is taken as a
  parameter: a pair of functions over an arbitrary transport state `σ`.
  Both return the integer status of the mbed API (`0` is success, anything
  else is failure).
* Every call of `gpI2c->write` / `gpI2c->read` is appended to a ghost log
  together with the value the readiness flag `gReady` has at that moment.
* A driver method that dereferences a null `gpI2c` has no defined behaviour;
  the embedding returns `none` there.
* mbed targets ARM, where plain `char` is unsigned: a `char` holds `0..255`.
* A byte of a local buffer that the source leaves unset is taken as `0`; it can
  only be observed when a transport reports success for a read while
  delivering fewer bytes than were asked for.
* `wait_ms(10)` in `read` is a pure delay and is not represented.
* The debug code under `DEBUG_ADXL345` is compiled out and is not represented;
  neither is `readDeviceRegisters`, a debug helper that no method calls.
-/

namespace Adxl345

/-- A bus transaction as the transport sees it. -/
inductive Txn where
  | write (addr : Nat) (data : List Nat)
  | read (addr : Nat) (len : Nat)
  deriving DecidableEq, Repr

/-- A logged transaction, with the value of `gReady` when it was issued. -/
structure Event where
  ready : Bool
  txn : Txn
  deriving DecidableEq, Repr

/-- The mbed I2C transport: `write(address, data, length)` and
`read(address, data, length)`.  The status is `0` on success.  `read` also
returns the bytes it delivers into the caller's buffer. -/
structure I2C (σ : Type) where
  write : σ → Nat → List Nat → Int × σ
  read : σ → Nat → Nat → Int × List Nat × σ

/-- The member variables of the driver class. -/
structure AccelerometerAdxl345 (σ : Type) where
  gpI2c : Option (I2C σ)
  gAddress : Nat
  gReady : Bool

/-- The driver object together with the transport state and the ghost log. -/
structure World (σ : Type) where
  drv : AccelerometerAdxl345 σ
  bus : σ
  log : List Event

variable {σ : Type}

/-- The transactions of the log, without the readiness annotation. -/
def World.txns (w : World σ) : List Txn := w.log.map Event.txn

/-- The enumeration `EventsBitmap_t` of the header, with the values C++ gives
to its enumerators. -/
def EVENT_NONE : Nat := 0
/-- Second enumerator of `EventsBitmap_t`. -/
def EVENT_ACTIVITY : Nat := 1
/-- Third enumerator of `EventsBitmap_t`. -/
def EVENT_SINGLE_TAP : Nat := 2
/-- Fourth enumerator of `EventsBitmap_t`. -/
def EVENT_DOUBLE_TAP : Nat := 3
/-- Last enumerator of `EventsBitmap_t`. -/
def MAX_NUM_EVENTS : Nat := 4

/-- The macro `ACCELEROMETER_ADXL345_ADDRESS`. -/
def ACCELEROMETER_ADXL345_ADDRESS : Nat := 0x53

/-- Conversion of an integer to `int16_t` (wrap modulo 2^16). -/
def toInt16 (v : Int) : Int := (v + 32768) % 65536 - 32768

/-- The contents of a caller's buffer `buf` after the transport delivered the
bytes `got` for a read of `n` bytes: at most `n` bytes are stored, each as an
8-bit value, the rest of the buffer keeps its contents. -/
def storeBytes (buf got : List Nat) (n : Nat) : List Nat :=
  (got.take n).map (· % 256) ++ buf.drop (got.take n).length

/-- The call `gpI2c->write(gAddress, data, length)` on a non-null transport. -/
def busWrite (i2c : I2C σ) (w : World σ) (data : List Nat) : Int × World σ :=
  let r := i2c.write w.bus w.drv.gAddress data
  (r.1, { drv := w.drv, bus := r.2,
          log := w.log ++ [⟨w.drv.gReady, Txn.write w.drv.gAddress data⟩] })

/-- The call `gpI2c->read(gAddress, buf, n)` on a non-null transport. -/
def busRead (i2c : I2C σ) (w : World σ) (buf : List Nat) (n : Nat) :
    Int × List Nat × World σ :=
  let r := i2c.read w.bus w.drv.gAddress n
  (r.1, storeBytes buf r.2.1 n,
    { drv := w.drv, bus := r.2.2,
      log := w.log ++ [⟨w.drv.gReady, Txn.read w.drv.gAddress n⟩] })

/-- Assignment to the member `gReady`. -/
def setReady (w : World σ) (b : Bool) : World σ :=
  { drv := { gpI2c := w.drv.gpI2c, gAddress := w.drv.gAddress, gReady := b },
    bus := w.bus, log := w.log }

/-- The method `getRegisters(address, pValues, numValues)`.  `pValues` is
`none` for a null pointer and otherwise holds the current contents of the
buffer; the buffer after the call is returned next to the result. -/
def getRegisters (w : World σ) (address : Nat) (pValues : Option (List Nat))
    (numValues : Nat) : Bool × Option (List Nat) × World σ :=
  match w.drv.gpI2c with
  | none => (false, pValues, w)
  | some i2c =>
    let r := busWrite i2c w [address]
    if r.1 = 0 then
      match pValues with
      | some buf =>
        let q := busRead i2c r.2 buf numValues
        if q.1 = 0 then (true, some q.2.1, q.2.2) else (false, some q.2.1, q.2.2)
      | none => (true, none, r.2)
    else (false, pValues, r.2)

/-- The constructor. -/
def construct : AccelerometerAdxl345 σ :=
  { gpI2c := none, gAddress := 0, gReady := false }

/-- One configuration block of `init`: `data[0] = reg; data[1] = val;` then
`if (gpI2c->write(gAddress, data, sizeof(data)) != 0) gReady = false;`. -/
def initWrite (w : World σ) (reg val : Nat) : Option (World σ) :=
  match w.drv.gpI2c with
  | none => none
  | some i2c =>
    let r := busWrite i2c w [reg, val]
    if r.1 ≠ 0 then some (setReady r.2 false) else some r.2

/-- The method `init(pI2c, address)`; `address` is a `uint8_t`. -/
def init (w : World σ) (pI2c : Option (I2C σ)) (address : Nat) :
    Option (Bool × World σ) :=
  let w0 : World σ :=
    { drv := { gpI2c := pI2c, gAddress := (address <<< 1) % 256, gReady := false },
      bus := w.bus, log := w.log }
  let g := getRegisters w0 0x00 (some [0]) 1
  if g.1 then
    if (g.2.1.getD []).headD 0 = 0xe5 then do
      let w1 := setReady g.2.2 true
      let w2 ← initWrite w1 0x2e 0x00
      let w3 ← initWrite w2 0x24 0x10
      let w4 ← initWrite w3 0x27 0xf0
      let w5 ← initWrite w4 0x2c 0x07
      let w6 ← initWrite w5 0x2e 0x10
      let w7 ← initWrite w6 0x2d 0x08
      pure (w7.drv.gReady, w7)
    else some (g.2.2.drv.gReady, g.2.2)
  else some (g.2.2.drv.gReady, g.2.2)

/-- The method `handleInterrupt()`; the result is the enumeration value. -/
def handleInterrupt (w : World σ) : Option (Nat × World σ) :=
  if w.drv.gReady then
    match w.drv.gpI2c with
    | none => none
    | some i2c =>
      let r := busWrite i2c w [0x30]
      if r.1 = 0 then
        let q := busRead i2c r.2 [0] 1
        if q.1 = 0 then
          let eventReg := q.2.1.headD 0
          let e0 := EVENT_NONE
          let e1 := if eventReg &&& 0x10 ≠ 0 then e0 ||| EVENT_ACTIVITY else e0
          let e2 := if eventReg &&& 0x20 ≠ 0 then e1 ||| EVENT_DOUBLE_TAP else e1
          let e3 := if eventReg &&& 0x40 ≠ 0 then e2 ||| EVENT_SINGLE_TAP else e2
          some (e3, q.2.2)
        else some (EVENT_NONE, q.2.2)
      else some (EVENT_NONE, r.2)
  else some (EVENT_NONE, w)

/-- The result of `read`: the return value and the three output slots. -/
structure ReadResult where
  success : Bool
  x : Option Int
  y : Option Int
  z : Option Int
  deriving DecidableEq, Repr

/-- The method `read(pX, pY, pZ)`.  A slot is `none` for a null pointer and
otherwise holds the value stored at the pointer. -/
def read (w : World σ) (pX pY pZ : Option Int) : Option (ReadResult × World σ) :=
  if w.drv.gReady then
    match w.drv.gpI2c with
    | none => none
    | some i2c =>
      let r := busWrite i2c w [0x2d, 0x08]
      if r.1 = 0 then
        let g := getRegisters r.2 0x32 (some [0x2d, 0x08, 0, 0, 0, 0]) 6
        if g.1 then
          let data := g.2.1.getD []
          let x := toInt16 ((data.getD 0 0 : Int) + toInt16 (data.getD 1 0) * 2 ^ 8)
          let y := toInt16 ((data.getD 2 0 : Int) + toInt16 (data.getD 3 0) * 2 ^ 8)
          let z := toInt16 ((data.getD 4 0 : Int) + toInt16 (data.getD 5 0) * 2 ^ 8)
          some ({ success := true, x := pX.map (fun _ => x), y := pY.map (fun _ => y),
                  z := pZ.map (fun _ => z) }, g.2.2)
        else some ({ success := false, x := pX, y := pY, z := pZ }, g.2.2)
      else some ({ success := false, x := pX, y := pY, z := pZ }, r.2)
  else some ({ success := false, x := pX, y := pY, z := pZ }, w)

/-- The method `setActivityThreshold(threshold)`; `threshold` is a `uint8_t`. -/
def setActivityThreshold (w : World σ) (threshold : Nat) : Option (Bool × World σ) :=
  if w.drv.gReady then
    match w.drv.gpI2c with
    | none => none
    | some i2c =>
      let r := busWrite i2c w [0x24, threshold % 256]
      if r.1 = 0 then some (true, r.2) else some (false, r.2)
  else some (false, w)

/-- The method `areInterruptsEnabled()`.  The source compares the `bool`
returned by `getRegisters` with `0`. -/
def areInterruptsEnabled (w : World σ) : Option (Bool × World σ) :=
  if w.drv.gReady then
    let g := getRegisters w 0x2e (some [0]) 1
    if g.1 = false then
      if (g.2.1.getD []).headD 0 ≠ 0x00 then some (true, g.2.2) else some (false, g.2.2)
    else some (false, g.2.2)
  else some (false, w)

/-- One configuration block of `enableInterrupts`: the two-byte write; a
non-zero status clears the local `success`. -/
def enableWrite (w : World σ) (success : Bool) (reg val : Nat) :
    Option (Bool × World σ) :=
  match w.drv.gpI2c with
  | none => none
  | some i2c =>
    let r := busWrite i2c w [reg, val]
    if r.1 ≠ 0 then some (false, r.2) else some (success, r.2)

/-- The method `enableInterrupts()`. -/
def enableInterrupts (w : World σ) : Option (Bool × World σ) :=
  if w.drv.gReady then do
    let a ← enableWrite w true 0x2e 0x00
    let b ← enableWrite a.2 a.1 0x24 0x10
    let c ← enableWrite b.2 b.1 0x27 0xf0
    let d ← enableWrite c.2 c.1 0x2c 0x07
    let h ← handleInterrupt d.2
    let e ← enableWrite h.2 d.1 0x2e 0x10
    let f ← enableWrite e.2 e.1 0x2d 0x08
    pure (f.1, f.2)
  else some (true, w)

/-- The method `disableInterrupts()`. -/
def disableInterrupts (w : World σ) : Option (Bool × World σ) :=
  if w.drv.gReady then
    match w.drv.gpI2c with
    | none => none
    | some i2c =>
      let r := busWrite i2c w [0x2e, 0x00]
      if r.1 = 0 then some (true, r.2) else some (false, r.2)
  else some (false, w)

/-! ## Test transports -/

/-- A transport that acknowledges everything and answers every read with the
bytes of `reply`. -/
def mockI2C (reply : List Nat) : I2C Unit where
  write := fun s _ _ => (0, s)
  read := fun s _ _ => (0, reply, s)

/-- A scripted transport: the state is the list of statuses still to hand
out, one per transaction (an exhausted script acknowledges); reads deliver
`reply`. -/
def scriptI2C (reply : List Nat) : I2C (List Int) where
  write := fun s _ _ => (s.headD 0, s.tail)
  read := fun s _ _ => (s.headD 0, reply, s.tail)

/-- A freshly constructed driver in front of a transport state. -/
def fresh (s : σ) : World σ := { drv := construct, bus := s, log := [] }

/-- A ready driver at bus address `addr` using transport `i2c`. -/
def readyWorld (i2c : I2C σ) (addr : Nat) (s : σ) : World σ :=
  { drv := { gpI2c := some i2c, gAddress := addr, gReady := true }, bus := s, log := [] }

/-- The six configuration writes of the specification, in order:
interrupt-disable, threshold, activity-control, data-rate, interrupt-enable,
power-control. -/
def configWrites : List (List Nat) :=
  [[0x2e, 0x00], [0x24, 0x10], [0x27, 0xf0], [0x2c, 0x07], [0x2e, 0x10], [0x2d, 0x08]]

/-- The statuses a transport hands out when the writes `ws` are sent to
`addr` one after the other, starting from transport state `s`. -/
def writeStatuses (i2c : I2C σ) (addr : Nat) : σ → List (List Nat) → List Int
  | _, [] => []
  | s, d :: ws => (i2c.write s addr d).1 :: writeStatuses i2c addr (i2c.write s addr d).2 ws

/-- The transport state reached after the identity read of `init`. -/
def afterIdentity (i2c : I2C σ) (addr : Nat) (s : σ) : σ :=
  (i2c.read (i2c.write s addr [0x00]).2 addr 1).2.2

/-- A two-byte register write whose failure clears the readiness flag, as a
function of the world (the transport is known). -/
def writeStep (i2c : I2C σ) (w : World σ) (d : List Nat) : World σ :=
  { drv := { gpI2c := w.drv.gpI2c, gAddress := w.drv.gAddress,
             gReady := w.drv.gReady && decide ((i2c.write w.bus w.drv.gAddress d).1 = 0) },
    bus := (i2c.write w.bus w.drv.gAddress d).2,
    log := w.log ++ [⟨w.drv.gReady, Txn.write w.drv.gAddress d⟩] }

/-- The writes `ds` sent one after the other, none skipped. -/
def writeSteps (i2c : I2C σ) : World σ → List (List Nat) → World σ
  | w, [] => w
  | w, d :: ds => writeSteps i2c (writeStep i2c w d) ds

/-- The world in which `init` starts its configuration writes: the members
are set, the identity read is logged, the flag is raised. -/
def identityDone (i2c : I2C σ) (w : World σ) (a : Nat) : World σ :=
  { drv := { gpI2c := some i2c, gAddress := a, gReady := true },
    bus := (i2c.read (i2c.write w.bus a [0x00]).2 a 1).2.2,
    log := w.log ++ [⟨false, Txn.write a [0x00]⟩] ++ [⟨false, Txn.read a 1⟩] }

/-- The little-endian two's-complement signed 16-bit value of a byte pair, in
the words of the specification: `low + 256 * high` taken modulo 2^16 and read
as a signed 16-bit integer. -/
def int16LE (lo hi : Nat) : Int :=
  let m : Int := ((lo : Int) + 256 * (hi : Int)) % 65536
  if m < 32768 then m else m - 65536

/-- The world after the three member assignments that open `init`. -/
def initStart (w : World σ) (pI2c : Option (I2C σ)) (a : Nat) : World σ :=
  { drv := { gpI2c := pI2c, gAddress := a, gReady := false }, bus := w.bus, log := w.log }

/-- The bus address a transaction is sent to. -/
def Txn.addr : Txn → Nat
  | Txn.write a _ => a
  | Txn.read a _ => a

/-- The register writes `ds` sent one after the other with `gpI2c->write`,
none skipped, the driver members untouched. -/
def sendWrites (i2c : I2C σ) : World σ → List (List Nat) → World σ
  | w, [] => w
  | w, d :: ds => sendWrites i2c (busWrite i2c w d).2 ds

/-- The world after the interrupt-status read of `handleInterrupt` on a ready
driver: the write of `[0x30]` and, when it is acknowledged, the 1-byte read. -/
def statusRead (i2c : I2C σ) (w : World σ) : World σ :=
  if (busWrite i2c w [0x30]).1 = 0 then (busRead i2c (busWrite i2c w [0x30]).2 [0] 1).2.2
  else (busWrite i2c w [0x30]).2

/-- The transactions of the interrupt-status read at bus address `a` from
transport state `s`: the read follows only an acknowledged address write. -/
def statusTxns (i2c : I2C σ) (a : Nat) (s : σ) : List Txn :=
  if (i2c.write s a [0x30]).1 = 0 then [Txn.write a [0x30], Txn.read a 1]
  else [Txn.write a [0x30]]

/-- Every reachable driver state satisfies this: a ready driver has a
transport. -/
def ReadyHasBus (w : World σ) : Prop :=
  w.drv.gReady = true → ∃ i2c, w.drv.gpI2c = some i2c

/-- The world `w2` comes from `w1` by bus transactions only: the members are
the same and every logged event was issued with `gReady` true, to the stored
bus address. -/
def Extends (w1 w2 : World σ) : Prop :=
  w2.drv = w1.drv ∧ ∃ ext, w2.log = w1.log ++ ext ∧
    ∀ e ∈ ext, e.ready = true ∧ e.txn.addr = w1.drv.gAddress

/-- A call of one of the public methods. -/
inductive Call (σ : Type) where
  | init (pI2c : Option (I2C σ)) (address : Nat)
  | read (pX pY pZ : Option Int)
  | setActivityThreshold (threshold : Nat)
  | areInterruptsEnabled
  | enableInterrupts
  | disableInterrupts
  | handleInterrupt

/-- Whether the call is `init`. -/
def Call.isInit : Call σ → Bool
  | Call.init _ _ => true
  | _ => false

/-- The world after a call; the returned value is dropped. -/
def call (w : World σ) : Call σ → Option (World σ)
  | Call.init p a => (init w p a).map Prod.snd
  | Call.read x y z => (read w x y z).map Prod.snd
  | Call.setActivityThreshold t => (setActivityThreshold w t).map Prod.snd
  | Call.areInterruptsEnabled => (areInterruptsEnabled w).map Prod.snd
  | Call.enableInterrupts => (enableInterrupts w).map Prod.snd
  | Call.disableInterrupts => (disableInterrupts w).map Prod.snd
  | Call.handleInterrupt => (handleInterrupt w).map Prod.snd

/-- An execution: the calls `cs` made one after the other.  Next to the final
world it returns the events issued, each paired with whether it was issued
by a call of `init`. -/
def exec : World σ → List (Call σ) → Option (World σ × List (Bool × Event))
  | w, [] => some (w, [])
  | w, c :: cs =>
    match call w c with
    | none => none
    | some w1 =>
      match exec w1 cs with
      | none => none
      | some (w2, tr) =>
        some (w2, (w1.log.drop w.log.length).map (fun e => (c.isInit, e)) ++ tr)

/-- The value carried by the last two-byte write to register `reg` among the
transactions `ts`, if there is one. -/
def lastRegWrite (reg : Nat) : List Txn → Option Nat
  | [] => none
  | t :: ts =>
    match lastRegWrite reg ts with
    | some v => some v
    | none =>
      match t with
      | Txn.write _ [r, v] => if r = reg then some v else none
      | _ => none

/-- The events of the configuration writes `ds` of `init`, sent to `a` from
transport state `s`: each is issued with the flag `rdy` that the earlier
writes have left, and a refused write clears the flag for those after it. -/
def configEvents (i2c : I2C σ) (a : Nat) : σ → Bool → List (List Nat) → List Event
  | _, _, [] => []
  | s, rdy, d :: ds =>
    ⟨rdy, Txn.write a d⟩ ::
      configEvents i2c a (i2c.write s a d).2 (rdy && decide ((i2c.write s a d).1 = 0)) ds

/-- The world `w` with the events `l` put in front of its log. -/
def prependLog (l : List Event) (w : World σ) : World σ :=
  { drv := w.drv, bus := w.bus, log := l ++ w.log }

/-- The condition under which the identity read of `init` passes on transport
`i2c` at bus address `a` from transport state `s`: the register-address
write and the 1-byte read return `0` and the byte left in the buffer is
`0xE5`. -/
def identityPasses (i2c : I2C σ) (a : Nat) (s : σ) : Prop :=
  (i2c.write s a [0x00]).1 = 0 ∧ (i2c.read (i2c.write s a [0x00]).2 a 1).1 = 0 ∧
    (storeBytes [0] (i2c.read (i2c.write s a [0x00]).2 a 1).2.1 1).headD 0 = 0xe5

/-- The events a call of `init` with transport argument `pI2c` logs at bus
address `a` from transport state `s`: nothing without a transport; the
identity read, cut short when its register-address write is refused; and,
when the identity read passes, the six configuration writes. -/
def initEvents (pI2c : Option (I2C σ)) (a : Nat) (s : σ) : List Event :=
  match pI2c with
  | none => []
  | some i2c =>
    if (i2c.write s a [0x00]).1 = 0 then
      [⟨false, Txn.write a [0x00]⟩, ⟨false, Txn.read a 1⟩] ++
        (if (i2c.read (i2c.write s a [0x00]).2 a 1).1 = 0 ∧
            (storeBytes [0] (i2c.read (i2c.write s a [0x00]).2 a 1).2.1 1).headD 0 = 0xe5 then
          configEvents i2c a (afterIdentity i2c a s) true configWrites
        else [])
    else [⟨false, Txn.write a [0x00]⟩]

/-- The invariant of the specification read on a log: an event issued with
the readiness flag false is a transaction of the identity read (the write of
`[0x00]` or the 1-byte read). -/
def NotReadyOnlyIdentity (l : List Event) : Prop :=
  ∀ e ∈ l, e.ready = false → ∃ a, e.txn = Txn.write a [0x00] ∨ e.txn = Txn.read a 1

/-! ## Basic lemmas -/

theorem shl_addr (A : Nat) (hA : A ≤ 127) : (A <<< 1) % 256 = 2 * A := by
  rw [Nat.shiftLeft_eq]; omega

theorem initWrite_some (w : World σ) (i2c : I2C σ) (reg val : Nat)
    (h : w.drv.gpI2c = some i2c) :
    initWrite w reg val = some (writeStep i2c w [reg, val]) := by
  obtain ⟨⟨p, a, r⟩, b, l⟩ := w
  simp only at h
  subst h
  by_cases hz : (i2c.write b a [reg, val]).1 = 0
  · simp [initWrite, busWrite, writeStep, hz]
  · simp [initWrite, busWrite, setReady, writeStep, hz]

theorem writeStep_gpI2c (i2c : I2C σ) (w : World σ) (d : List Nat) :
    (writeStep i2c w d).drv.gpI2c = w.drv.gpI2c := rfl

theorem writeStep_gAddress (i2c : I2C σ) (w : World σ) (d : List Nat) :
    (writeStep i2c w d).drv.gAddress = w.drv.gAddress := rfl

theorem writeSteps_gpI2c (i2c : I2C σ) (ds : List (List Nat)) (w : World σ) :
    (writeSteps i2c w ds).drv.gpI2c = w.drv.gpI2c := by
  induction ds generalizing w with
  | nil => rfl
  | cons d ds ih => rw [writeSteps, ih, writeStep_gpI2c]

theorem writeSteps_gAddress (i2c : I2C σ) (ds : List (List Nat)) (w : World σ) :
    (writeSteps i2c w ds).drv.gAddress = w.drv.gAddress := by
  induction ds generalizing w with
  | nil => rfl
  | cons d ds ih => rw [writeSteps, ih, writeStep_gAddress]

theorem writeSteps_txns (i2c : I2C σ) (ds : List (List Nat)) (w : World σ) :
    (writeSteps i2c w ds).txns = w.txns ++ ds.map (Txn.write w.drv.gAddress) := by
  induction ds generalizing w with
  | nil => simp [writeSteps]
  | cons d ds ih =>
    rw [writeSteps, ih, writeStep_gAddress]
    simp [World.txns, writeStep]

theorem writeSteps_gReady (i2c : I2C σ) (ds : List (List Nat)) (w : World σ) :
    (writeSteps i2c w ds).drv.gReady = true ↔
      w.drv.gReady = true ∧ ∀ r ∈ writeStatuses i2c w.drv.gAddress w.bus ds, r = 0 := by
  induction ds generalizing w with
  | nil => simp [writeSteps, writeStatuses]
  | cons d ds ih =>
    rw [writeSteps, ih]
    simp [writeStep, writeStatuses, and_assoc]

/-- When the identity read passes, `init` runs all six configuration blocks
from `identityDone` and returns the final readiness flag. -/
theorem init_identity_pass (w : World σ) (i2c : I2C σ) (A : Nat)
    (hw : (i2c.write w.bus ((A <<< 1) % 256) [0x00]).1 = 0)
    (hr : (i2c.read (i2c.write w.bus ((A <<< 1) % 256) [0x00]).2 ((A <<< 1) % 256) 1).1 = 0)
    (hb : (storeBytes [0]
      (i2c.read (i2c.write w.bus ((A <<< 1) % 256) [0x00]).2 ((A <<< 1) % 256) 1).2.1 1).headD 0
        = 0xe5) :
    init w (some i2c) A =
      some ((writeSteps i2c (identityDone i2c w ((A <<< 1) % 256)) configWrites).drv.gReady,
        writeSteps i2c (identityDone i2c w ((A <<< 1) % 256)) configWrites) := by
  simp only [init, getRegisters, busWrite, busRead, hw, hr, hb, if_true, Option.getD_some,
    setReady, reduceIte]
  rw [initWrite_some _ i2c _ _ rfl]
  simp only [Option.bind_eq_bind, Option.some_bind]
  rw [initWrite_some _ i2c _ _ rfl]
  simp only [Option.bind_eq_bind, Option.some_bind]
  rw [initWrite_some _ i2c _ _ rfl]
  simp only [Option.bind_eq_bind, Option.some_bind]
  rw [initWrite_some _ i2c _ _ rfl]
  simp only [Option.bind_eq_bind, Option.some_bind]
  rw [initWrite_some _ i2c _ _ rfl]
  simp only [Option.bind_eq_bind, Option.some_bind]
  rw [initWrite_some _ i2c _ _ rfl]
  simp only [Option.bind_eq_bind, Option.some_bind]
  rfl

/-- Without a transport `init` fails before any transaction. -/
theorem init_null (w : World σ) (A : Nat) :
    init w none A = some (false, initStart w none ((A <<< 1) % 256)) := rfl

/-- When the register-address write of the identity read fails, `init` fails
after that single transaction. -/
theorem init_address_write_fail (w : World σ) (i2c : I2C σ) (A : Nat)
    (hw : (i2c.write w.bus ((A <<< 1) % 256) [0x00]).1 ≠ 0) :
    init w (some i2c) A =
      some (false, (busWrite i2c (initStart w (some i2c) ((A <<< 1) % 256)) [0x00]).2) := by
  simp only [init, getRegisters, busWrite, hw, reduceIte, initStart]
  rfl

/-- When the register-address write succeeds but the 1-byte read fails or
leaves a byte other than `0xE5` in the buffer, `init` fails after the
identity read. -/
theorem init_identity_reject (w : World σ) (i2c : I2C σ) (A : Nat)
    (hw : (i2c.write w.bus ((A <<< 1) % 256) [0x00]).1 = 0)
    (hrej : ¬ ((i2c.read (i2c.write w.bus ((A <<< 1) % 256) [0x00]).2 ((A <<< 1) % 256) 1).1 = 0 ∧
      (storeBytes [0]
        (i2c.read (i2c.write w.bus ((A <<< 1) % 256) [0x00]).2 ((A <<< 1) % 256) 1).2.1
          1).headD 0 = 0xe5)) :
    init w (some i2c) A = some (false,
      (busRead i2c (busWrite i2c (initStart w (some i2c) ((A <<< 1) % 256)) [0x00]).2
        [0] 1).2.2) := by
  by_cases hr :
    (i2c.read (i2c.write w.bus ((A <<< 1) % 256) [0x00]).2 ((A <<< 1) % 256) 1).1 = 0
  · have hne := fun hb => hrej ⟨hr, hb⟩
    simp only [init, getRegisters, busWrite, busRead, hw, hr, if_true, Option.getD_some,
      reduceIte, initStart]
    rw [if_neg hne]
  · simp only [init, getRegisters, busWrite, busRead, hw, hr, if_true, reduceIte,
      initStart]
    rfl

/-- `init` always returns, and what it returns is the final value of
`gReady`. -/
theorem init_returns_flag (w : World σ) (pI2c : Option (I2C σ)) (A : Nat) :
    ∃ w', init w pI2c A = some (w'.drv.gReady, w') := by
  cases pI2c with
  | none => exact ⟨initStart w none ((A <<< 1) % 256), init_null w A⟩
  | some i2c =>
    by_cases hw : (i2c.write w.bus ((A <<< 1) % 256) [0x00]).1 = 0
    · by_cases hp : (i2c.read (i2c.write w.bus ((A <<< 1) % 256) [0x00]).2
          ((A <<< 1) % 256) 1).1 = 0 ∧ (storeBytes [0]
          (i2c.read (i2c.write w.bus ((A <<< 1) % 256) [0x00]).2 ((A <<< 1) % 256) 1).2.1
            1).headD 0 = 0xe5
      · exact ⟨_, init_identity_pass w i2c A hw hp.1 hp.2⟩
      · exact ⟨(busRead i2c (busWrite i2c (initStart w (some i2c) ((A <<< 1) % 256)) [0x00]).2
          [0] 1).2.2, init_identity_reject w i2c A hw hp⟩
    · exact ⟨(busWrite i2c (initStart w (some i2c) ((A <<< 1) % 256)) [0x00]).2,
        init_address_write_fail w i2c A hw⟩

/-! ## Initialisation -/

/-- C1: for a 7-bit address `A` and a transport on which every write succeeds
and the identity read (write of `[0x00]`, then a 1-byte read) succeeds and
delivers `0xE5`, `init` returns success, leaves `gReady` true, and after the
identity read issues exactly the six two-byte configuration writes, in the
fixed order. -/
theorem init_success_six_writes (w : World σ) (i2c : I2C σ) (A : Nat) (hA : A ≤ 127)
    (hwr : ∀ s a d, (i2c.write s a d).1 = 0)
    (hrd : (i2c.read (i2c.write w.bus (2 * A) [0x00]).2 (2 * A) 1).1 = 0)
    (hid : (i2c.read (i2c.write w.bus (2 * A) [0x00]).2 (2 * A) 1).2.1 = [0xe5]) :
    ∃ w', init w (some i2c) A = some (true, w') ∧ w'.drv.gReady = true ∧
      w'.txns = w.txns ++ [Txn.write (2 * A) [0x00], Txn.read (2 * A) 1] ++
        [Txn.write (2 * A) [0x2e, 0x00], Txn.write (2 * A) [0x24, 0x10],
         Txn.write (2 * A) [0x27, 0xf0], Txn.write (2 * A) [0x2c, 0x07],
         Txn.write (2 * A) [0x2e, 0x10], Txn.write (2 * A) [0x2d, 0x08]] := by
  have ha := shl_addr A hA
  have hp := init_identity_pass w i2c A (hwr _ _ _) (by rw [ha]; exact hrd)
    (by rw [ha, hid]; rfl)
  rw [ha] at hp
  have hready : (writeSteps i2c (identityDone i2c w (2 * A)) configWrites).drv.gReady = true := by
    rw [writeSteps_gReady]
    refine ⟨rfl, ?_⟩
    intro r hr
    simp only [writeStatuses, configWrites, hwr] at hr
    simpa using hr
  refine ⟨writeSteps i2c (identityDone i2c w (2 * A)) configWrites, ?_, hready, ?_⟩
  · rw [hp, hready]
  · rw [writeSteps_txns]
    simp [World.txns, identityDone, configWrites]

/-- Witness for C1: the default address `0x53` on a transport that
acknowledges every transaction and answers reads with `0xE5`. -/
theorem init_success_six_writes_witness :
    ∃ w', init (fresh ()) (some (mockI2C [0xe5])) 0x53 = some (true, w') ∧
      w'.drv.gReady = true ∧
      w'.txns = (fresh ()).txns ++ [Txn.write (2 * 0x53) [0x00], Txn.read (2 * 0x53) 1] ++
        [Txn.write (2 * 0x53) [0x2e, 0x00], Txn.write (2 * 0x53) [0x24, 0x10],
         Txn.write (2 * 0x53) [0x27, 0xf0], Txn.write (2 * 0x53) [0x2c, 0x07],
         Txn.write (2 * 0x53) [0x2e, 0x10], Txn.write (2 * 0x53) [0x2d, 0x08]] :=
  init_success_six_writes (fresh ()) (mockI2C [0xe5]) 0x53 (by decide)
    (fun _ _ _ => rfl) rfl rfl

/-- C2: when the identity read succeeds and delivers `0xE5`, then for every
behaviour of the transport on the configuration writes `init` attempts all six
of them in the fixed order, returns the final value of `gReady`, and that
value is true exactly when all six writes returned status `0`. -/
theorem init_attempts_all_six (w : World σ) (i2c : I2C σ) (A a : Nat)
    (ha : (A <<< 1) % 256 = a)
    (hwr : (i2c.write w.bus a [0x00]).1 = 0)
    (hrd : (i2c.read (i2c.write w.bus a [0x00]).2 a 1).1 = 0)
    (hid : (i2c.read (i2c.write w.bus a [0x00]).2 a 1).2.1 = [0xe5]) :
    ∃ w', init w (some i2c) A = some (w'.drv.gReady, w') ∧
      w'.txns = w.txns ++ [Txn.write a [0x00], Txn.read a 1] ++
        [Txn.write a [0x2e, 0x00], Txn.write a [0x24, 0x10],
         Txn.write a [0x27, 0xf0], Txn.write a [0x2c, 0x07],
         Txn.write a [0x2e, 0x10], Txn.write a [0x2d, 0x08]] ∧
      (w'.drv.gReady = true ↔
        ∀ r ∈ writeStatuses i2c a (afterIdentity i2c a w.bus) configWrites, r = 0) := by
  subst ha
  have hp := init_identity_pass w i2c A hwr hrd (by rw [hid]; rfl)
  refine ⟨writeSteps i2c (identityDone i2c w ((A <<< 1) % 256)) configWrites, hp, ?_, ?_⟩
  · rw [writeSteps_txns]
    simp [World.txns, identityDone, configWrites]
  · rw [writeSteps_gReady]
    simp [identityDone, afterIdentity]

/-- Witness for C2: the identity read is acknowledged and the fourth
configuration write (the sixth transaction) is refused. -/
theorem init_attempts_all_six_witness :
    ∃ w', init (fresh [0, 0, 0, 0, 0, 1]) (some (scriptI2C [0xe5])) 0x53 =
        some (w'.drv.gReady, w') ∧
      w'.txns = (fresh [0, 0, 0, 0, 0, 1]).txns ++ [Txn.write 0xa6 [0x00], Txn.read 0xa6 1] ++
        [Txn.write 0xa6 [0x2e, 0x00], Txn.write 0xa6 [0x24, 0x10],
         Txn.write 0xa6 [0x27, 0xf0], Txn.write 0xa6 [0x2c, 0x07],
         Txn.write 0xa6 [0x2e, 0x10], Txn.write 0xa6 [0x2d, 0x08]] ∧
      (w'.drv.gReady = true ↔
        ∀ r ∈ writeStatuses (scriptI2C [0xe5]) 0xa6
          (afterIdentity (scriptI2C [0xe5]) 0xa6 (fresh [0, 0, 0, 0, 0, 1]).bus) configWrites,
          r = 0) :=
  init_attempts_all_six (fresh [0, 0, 0, 0, 0, 1]) (scriptI2C [0xe5]) 0x53 0xa6
    (by decide) rfl rfl rfl

/-- C3: if no transport is supplied, or the register-address write of the
identity read fails, or its 1-byte read fails, or the read delivers a byte
other than `0xE5`, then `init` returns failure, `gReady` is false afterwards
and the log holds nothing beyond (a prefix of) the identity read: none of the
configuration writes is issued. -/
theorem init_identity_fail (w : World σ) (pI2c : Option (I2C σ)) (A a : Nat)
    (ha : (A <<< 1) % 256 = a)
    (h : pI2c = none ∨ ∃ i2c, pI2c = some i2c ∧
      ((i2c.write w.bus a [0x00]).1 ≠ 0 ∨
       (i2c.read (i2c.write w.bus a [0x00]).2 a 1).1 ≠ 0 ∨
       ∃ b, b < 256 ∧ b ≠ 0xe5 ∧ (i2c.read (i2c.write w.bus a [0x00]).2 a 1).2.1 = [b])) :
    ∃ w', init w pI2c A = some (false, w') ∧ w'.drv.gReady = false ∧
      ∃ k, k ≤ 2 ∧ w'.txns = w.txns ++ ([Txn.write a [0x00], Txn.read a 1]).take k := by
  subst ha
  rcases h with h | ⟨i2c, h, hc⟩
  · subst h
    exact ⟨_, init_null w A, rfl, 0, by decide, by simp [World.txns, initStart]⟩
  · subst h
    by_cases hw : (i2c.write w.bus ((A <<< 1) % 256) [0x00]).1 = 0
    · refine ⟨_, init_identity_reject w i2c A hw ?_, rfl, 2, le_refl _,
        by simp [World.txns, initStart, busRead, busWrite]⟩
      rintro ⟨hr, hbyte⟩
      rcases hc with hc | hc | ⟨b, hb, hne, hc⟩
      · exact hc hw
      · exact hc hr
      · rw [hc] at hbyte
        simp [storeBytes, Nat.mod_eq_of_lt hb] at hbyte
        exact hne hbyte
    · exact ⟨_, init_address_write_fail w i2c A hw, rfl, 1, by decide,
        by simp [World.txns, initStart, busWrite]⟩

/-- Witness for C3: the transport acknowledges the identity read but answers
`0x00`. -/
theorem init_identity_fail_witness :
    ∃ w', init (fresh ()) (some (mockI2C [0x00])) 0x53 = some (false, w') ∧
      w'.drv.gReady = false ∧
      ∃ k, k ≤ 2 ∧ w'.txns = (fresh ()).txns ++ ([Txn.write 0xa6 [0x00], Txn.read 0xa6 1]).take k :=
  init_identity_fail (fresh ()) (some (mockI2C [0x00])) 0x53 0xa6 (by decide)
    (Or.inr ⟨mockI2C [0x00], rfl, Or.inr (Or.inr ⟨0, by decide, by decide, rfl⟩)⟩)

/-! ## Reading the axes -/

theorem decode_eq (lo hi : Nat) :
    toInt16 ((lo : Int) + toInt16 (hi : Int) * 2 ^ 8) = int16LE lo hi := by
  unfold toInt16 int16LE
  simp only
  split_ifs <;> omega

/-- On a ready driver whose three transactions succeed and whose burst read
delivers six bytes, `read` succeeds and stores the decoded axes in the
supplied slots. -/
theorem read_ok (w : World σ) (i2c : I2C σ) (s1 s2 s3 : σ) (b0 b1 b2 b3 b4 b5 : Nat)
    (pX pY pZ : Option Int)
    (hready : w.drv.gReady = true) (hi : w.drv.gpI2c = some i2c)
    (hm : i2c.write w.bus w.drv.gAddress [0x2d, 0x08] = (0, s1))
    (ha : i2c.write s1 w.drv.gAddress [0x32] = (0, s2))
    (hr : i2c.read s2 w.drv.gAddress 6 = (0, [b0, b1, b2, b3, b4, b5], s3))
    (hb : b0 < 256 ∧ b1 < 256 ∧ b2 < 256 ∧ b3 < 256 ∧ b4 < 256 ∧ b5 < 256) :
    read w pX pY pZ = some
      ({ success := true, x := pX.map (fun _ => int16LE b0 b1),
         y := pY.map (fun _ => int16LE b2 b3), z := pZ.map (fun _ => int16LE b4 b5) },
       { drv := w.drv, bus := s3,
         log := w.log ++ [⟨true, Txn.write w.drv.gAddress [0x2d, 0x08]⟩] ++
           [⟨true, Txn.write w.drv.gAddress [0x32]⟩] ++
           [⟨true, Txn.read w.drv.gAddress 6⟩] }) := by
  obtain ⟨h0, h1, h2, h3, h4, h5⟩ := hb
  obtain ⟨⟨p, a, r⟩, b, l⟩ := w
  simp only at hready hi hm ha hr
  subst hready hi
  simp only [read, getRegisters, busWrite, busRead, hm, ha, hr, storeBytes, if_true,
    reduceIte, Option.getD_some, List.take, List.map, List.length, List.drop, List.append_nil,
    List.getD_cons_zero, List.getD_cons_succ, Nat.mod_eq_of_lt h0, Nat.mod_eq_of_lt h1,
    Nat.mod_eq_of_lt h2, Nat.mod_eq_of_lt h3, Nat.mod_eq_of_lt h4, Nat.mod_eq_of_lt h5,
    List.cons_append, List.nil_append, decode_eq]

/-- C4: on a ready driver whose mode write, register-address write and burst
read succeed, with the burst read delivering the bytes `b0 .. b5`, `read`
yields in X, Y, Z the little-endian two's-complement 16-bit values of
`(b0,b1)`, `(b2,b3)`, `(b4,b5)`.  In particular `[0x10,0x00]`, `[0x20,0x00]`,
`[0x30,0x00]` decode to 16, 32, 48 and `[0xFF,0xFF]` decodes to -1. -/
theorem read_decodes_le16 (w : World σ) (i2c : I2C σ) (s1 s2 s3 : σ)
    (b0 b1 b2 b3 b4 b5 : Nat) (x0 y0 z0 : Int)
    (hready : w.drv.gReady = true) (hi : w.drv.gpI2c = some i2c)
    (hm : i2c.write w.bus w.drv.gAddress [0x2d, 0x08] = (0, s1))
    (ha : i2c.write s1 w.drv.gAddress [0x32] = (0, s2))
    (hr : i2c.read s2 w.drv.gAddress 6 = (0, [b0, b1, b2, b3, b4, b5], s3))
    (hb : b0 < 256 ∧ b1 < 256 ∧ b2 < 256 ∧ b3 < 256 ∧ b4 < 256 ∧ b5 < 256) :
    (∃ w', read w (some x0) (some y0) (some z0) = some
      ({ success := true, x := some (int16LE b0 b1), y := some (int16LE b2 b3),
         z := some (int16LE b4 b5) }, w')) ∧
    int16LE 0x10 0x00 = 16 ∧ int16LE 0x20 0x00 = 32 ∧ int16LE 0x30 0x00 = 48 ∧
    int16LE 0xff 0xff = -1 := by
  refine ⟨⟨_, read_ok w i2c s1 s2 s3 b0 b1 b2 b3 b4 b5 (some x0) (some y0) (some z0)
    hready hi hm ha hr hb⟩, ?_, ?_, ?_, ?_⟩ <;> decide

/-- Witness for C4: the burst `[0x10,0x00, 0x20,0x00, 0x30,0x00]` of the
specification, read into slots that held 7, 8, 9, gives 16, 32, 48. -/
theorem read_decodes_le16_witness :
    (∃ w', read (readyWorld (mockI2C [0x10, 0x00, 0x20, 0x00, 0x30, 0x00]) 0xa6 ())
        (some 7) (some 8) (some 9) = some
      ({ success := true, x := some 16, y := some 32, z := some 48 }, w')) ∧
    int16LE 0x10 0x00 = 16 ∧ int16LE 0x20 0x00 = 32 ∧ int16LE 0x30 0x00 = 48 ∧
    int16LE 0xff 0xff = -1 :=
  read_decodes_le16 (readyWorld (mockI2C [0x10, 0x00, 0x20, 0x00, 0x30, 0x00]) 0xa6 ())
    (mockI2C [0x10, 0x00, 0x20, 0x00, 0x30, 0x00]) () () () 0x10 0x00 0x20 0x00 0x30 0x00 7 8 9
    rfl rfl rfl rfl rfl (by decide)

/-- A burst of six `0xFF` bytes reads as -1 on every axis. -/
theorem read_all_ff :
    (read (readyWorld (mockI2C [0xff, 0xff, 0xff, 0xff, 0xff, 0xff]) 0xa6 ())
        (some 0) (some 0) (some 0)).map Prod.fst =
      some { success := true, x := some (-1), y := some (-1), z := some (-1) } := by
  decide

/-- C9: on a successful `read`, whichever of the three slots are supplied,
the return value is success, every supplied slot receives the value of its
own axis, and a slot that was not supplied (null) stays absent.  In
particular `read(null, &y, null)` stores Y only. -/
theorem read_writes_supplied_slots (w : World σ) (i2c : I2C σ) (s1 s2 s3 : σ)
    (b0 b1 b2 b3 b4 b5 : Nat) (pX pY pZ : Option Int)
    (hready : w.drv.gReady = true) (hi : w.drv.gpI2c = some i2c)
    (hm : i2c.write w.bus w.drv.gAddress [0x2d, 0x08] = (0, s1))
    (ha : i2c.write s1 w.drv.gAddress [0x32] = (0, s2))
    (hr : i2c.read s2 w.drv.gAddress 6 = (0, [b0, b1, b2, b3, b4, b5], s3))
    (hb : b0 < 256 ∧ b1 < 256 ∧ b2 < 256 ∧ b3 < 256 ∧ b4 < 256 ∧ b5 < 256) :
    (∃ res w', read w pX pY pZ = some (res, w') ∧ res.success = true ∧
      (pX = none → res.x = none) ∧ (pX ≠ none → res.x = some (int16LE b0 b1)) ∧
      (pY = none → res.y = none) ∧ (pY ≠ none → res.y = some (int16LE b2 b3)) ∧
      (pZ = none → res.z = none) ∧ (pZ ≠ none → res.z = some (int16LE b4 b5))) ∧
    (∀ y0 : Int, ∃ w', read w none (some y0) none = some
      ({ success := true, x := none, y := some (int16LE b2 b3), z := none }, w')) := by
  refine ⟨⟨_, _, read_ok w i2c s1 s2 s3 b0 b1 b2 b3 b4 b5 pX pY pZ hready hi hm ha hr hb,
    rfl, ?_, ?_, ?_, ?_, ?_, ?_⟩, fun y0 => ⟨_, read_ok w i2c s1 s2 s3 b0 b1 b2 b3 b4 b5
      none (some y0) none hready hi hm ha hr hb⟩⟩
  · intro h; simp [h]
  · intro h; cases pX with
    | none => exact absurd rfl h
    | some v => rfl
  · intro h; simp [h]
  · intro h; cases pY with
    | none => exact absurd rfl h
    | some v => rfl
  · intro h; simp [h]
  · intro h; cases pZ with
    | none => exact absurd rfl h
    | some v => rfl

/-- Witness for C9: only the Y slot is supplied. -/
theorem read_writes_supplied_slots_witness :
    (∃ res w', read (readyWorld (mockI2C [1, 0, 2, 0, 3, 0]) 0xa6 ()) none (some 9) none =
        some (res, w') ∧ res.success = true ∧
      ((none : Option Int) = none → res.x = none) ∧
      ((none : Option Int) ≠ none → res.x = some (int16LE 1 0)) ∧
      (some (9 : Int) = none → res.y = none) ∧
      (some (9 : Int) ≠ none → res.y = some (int16LE 2 0)) ∧
      ((none : Option Int) = none → res.z = none) ∧
      ((none : Option Int) ≠ none → res.z = some (int16LE 3 0))) ∧
    (∀ y0 : Int, ∃ w', read (readyWorld (mockI2C [1, 0, 2, 0, 3, 0]) 0xa6 ())
      none (some y0) none = some
      ({ success := true, x := none, y := some (int16LE 2 0), z := none }, w')) :=
  read_writes_supplied_slots (readyWorld (mockI2C [1, 0, 2, 0, 3, 0]) 0xa6 ())
    (mockI2C [1, 0, 2, 0, 3, 0]) () () () 1 0 2 0 3 0 none (some 9) none
    rfl rfl rfl rfl rfl (by decide)

/-- C10: on a ready driver `read` first writes `[0x2D,0x08]`, then writes the
single byte `0x32`, then reads 6 bytes.  It returns success exactly when all
three transactions return status `0`.  After a failed mode write nothing else
is issued (and after a failed address write no read is issued); whenever
`read` returns failure the supplied slots keep their contents. -/
theorem read_transactions (w : World σ) (i2c : I2C σ) (pX pY pZ : Option Int)
    (mrc arc rrc : Int) (s1 s2 s3 : σ) (bytes : List Nat)
    (hready : w.drv.gReady = true) (hi : w.drv.gpI2c = some i2c)
    (hm : i2c.write w.bus w.drv.gAddress [0x2d, 0x08] = (mrc, s1))
    (ha : i2c.write s1 w.drv.gAddress [0x32] = (arc, s2))
    (hr : i2c.read s2 w.drv.gAddress 6 = (rrc, bytes, s3)) :
    ∃ res w', read w pX pY pZ = some (res, w') ∧
      (res.success = true ↔ mrc = 0 ∧ arc = 0 ∧ rrc = 0) ∧
      w'.txns = w.txns ++
        (if mrc = 0 then
          if arc = 0 then
            [Txn.write w.drv.gAddress [0x2d, 0x08], Txn.write w.drv.gAddress [0x32],
             Txn.read w.drv.gAddress 6]
          else [Txn.write w.drv.gAddress [0x2d, 0x08], Txn.write w.drv.gAddress [0x32]]
        else [Txn.write w.drv.gAddress [0x2d, 0x08]]) ∧
      (res.success = false → res.x = pX ∧ res.y = pY ∧ res.z = pZ) := by
  obtain ⟨⟨p, a, r⟩, b, l⟩ := w
  simp only at hready hi hm ha hr
  subst hready hi
  by_cases h1 : mrc = 0
  · by_cases h2 : arc = 0
    · by_cases h3 : rrc = 0
      · subst h1 h2 h3
        simp only [read, getRegisters, busWrite, busRead, hm, ha, hr, if_true, reduceIte]
        exact ⟨_, _, rfl, by simp, by simp [World.txns], by simp⟩
      · subst h1 h2
        simp only [read, getRegisters, busWrite, busRead, hm, ha, hr, if_true, reduceIte, h3,
          if_false]
        exact ⟨_, _, rfl, by simp [h3], by simp [World.txns], by simp⟩
    · subst h1
      simp only [read, getRegisters, busWrite, hm, ha, if_true, reduceIte, h2, if_false]
      exact ⟨_, _, rfl, by simp [h2], by simp [World.txns], by simp⟩
  · simp only [read, busWrite, hm, if_true, reduceIte, h1, if_false]
    exact ⟨_, _, rfl, by simp [h1], by simp [World.txns], by simp⟩

/-- Witness for C10: the register-address write of the burst read (second
transaction) is refused; the slots keep 7, 8, 9. -/
theorem read_transactions_witness :
    ∃ res w', read (readyWorld (scriptI2C [1, 2, 3, 4, 5, 6]) 0xa6 [0, 1]) (some 7) (some 8)
        (some 9) = some (res, w') ∧
      (res.success = true ↔ (0 : Int) = 0 ∧ (1 : Int) = 0 ∧ (0 : Int) = 0) ∧
      w'.txns = (readyWorld (scriptI2C [1, 2, 3, 4, 5, 6]) 0xa6 [0, 1]).txns ++
        (if (0 : Int) = 0 then
          if (1 : Int) = 0 then
            [Txn.write 0xa6 [0x2d, 0x08], Txn.write 0xa6 [0x32], Txn.read 0xa6 6]
          else [Txn.write 0xa6 [0x2d, 0x08], Txn.write 0xa6 [0x32]]
        else [Txn.write 0xa6 [0x2d, 0x08]]) ∧
      (res.success = false → res.x = some 7 ∧ res.y = some 8 ∧ res.z = some 9) :=
  read_transactions (readyWorld (scriptI2C [1, 2, 3, 4, 5, 6]) 0xa6 [0, 1])
    (scriptI2C [1, 2, 3, 4, 5, 6]) (some 7) (some 8) (some 9) 0 1 0 [1] [] []
    [1, 2, 3, 4, 5, 6] rfl rfl rfl rfl rfl

/-! ## Operations on a driver that is not ready -/

/-- C7: when `gReady` is false, `read`, `setActivityThreshold`,
`areInterruptsEnabled`, `disableInterrupts` and `handleInterrupt` return
their failure value (false, or `EVENT_NONE`), leave the world as it is (no
transaction is logged, the transport state is untouched) and `read` leaves
all slots as they were. -/
theorem not_ready_short_circuit (w : World σ) (pX pY pZ : Option Int) (t : Nat)
    (h : w.drv.gReady = false) :
    read w pX pY pZ = some ({ success := false, x := pX, y := pY, z := pZ }, w) ∧
    setActivityThreshold w t = some (false, w) ∧
    areInterruptsEnabled w = some (false, w) ∧
    disableInterrupts w = some (false, w) ∧
    handleInterrupt w = some (EVENT_NONE, w) := by
  simp [read, setActivityThreshold, areInterruptsEnabled, disableInterrupts, handleInterrupt, h]

/-- Witness for C7: a freshly constructed driver. -/
theorem not_ready_short_circuit_witness :
    read (fresh ()) (some 1) none (some 3) =
      some ({ success := false, x := some 1, y := none, z := some 3 }, fresh ()) ∧
    setActivityThreshold (fresh ()) 5 = some (false, fresh ()) ∧
    areInterruptsEnabled (fresh ()) = some (false, fresh ()) ∧
    disableInterrupts (fresh ()) = some (false, fresh ()) ∧
    handleInterrupt (fresh ()) = some (EVENT_NONE, fresh ()) :=
  not_ready_short_circuit (fresh ()) (some 1) none (some 3) 5 rfl

/-- When `gReady` is false `enableInterrupts` issues nothing and returns its
initial `success = true`. -/
theorem enableInterrupts_not_ready (w : World σ) (h : w.drv.gReady = false) :
    enableInterrupts w = some (true, w) := by
  simp [enableInterrupts, h]

/-- C8: on a freshly constructed driver (`gReady` false) `enableInterrupts`
issues no transaction and leaves the world unchanged, but the value it
returns is `true`, not failure. -/
theorem enableInterrupts_fresh_returns_true :
    enableInterrupts (fresh ()) = some (true, fresh ()) ∧
    (fresh ()).drv.gReady = false ∧ (fresh ()).txns = [] :=
  ⟨rfl, rfl, rfl⟩

/-! ## Interrupt status -/

/-- On a ready driver whose register-address write and 1-byte read succeed,
`areInterruptsEnabled` returns false whatever byte was read: the branch that
inspects the byte is entered only when `getRegisters` returns false. -/
theorem areInterruptsEnabled_read_ok (w : World σ) (i2c : I2C σ) (s1 s2 : σ)
    (bytes : List Nat) (hready : w.drv.gReady = true) (hi : w.drv.gpI2c = some i2c)
    (ha : i2c.write w.bus w.drv.gAddress [0x2e] = (0, s1))
    (hr : i2c.read s1 w.drv.gAddress 1 = (0, bytes, s2)) :
    ∃ w', areInterruptsEnabled w = some (false, w') ∧
      w'.txns = w.txns ++ [Txn.write w.drv.gAddress [0x2e], Txn.read w.drv.gAddress 1] := by
  obtain ⟨⟨p, a, r⟩, b, l⟩ := w
  simp only at hready hi ha hr
  subst hready hi
  simp only [areInterruptsEnabled, getRegisters, busWrite, busRead, ha, hr, if_true, reduceIte]
  exact ⟨_, rfl, by simp [World.txns]⟩

/-- C6: on a ready driver whose read of register `0x2E` succeeds and delivers
the non-zero byte `0x10`, `areInterruptsEnabled` issues the read and returns
false. -/
theorem areInterruptsEnabled_nonzero_returns_false :
    (areInterruptsEnabled (readyWorld (mockI2C [0x10]) 0xa6 ())).map
        (fun r => (r.1, r.2.txns)) =
      some (false, [Txn.write 0xa6 [0x2e], Txn.read 0xa6 1]) := by
  decide

/-- C5: on a ready driver the source byte `0x50` (activity and single-tap)
makes `handleInterrupt` return `EVENT_DOUBLE_TAP`, the very value it returns
for the source byte `0x20` (double-tap alone): `EVENT_ACTIVITY | EVENT_SINGLE_TAP`
is `1 | 2 = 3`. -/
theorem handleInterrupt_0x50_equals_0x20 :
    (handleInterrupt (readyWorld (mockI2C [0x50]) 0xa6 ())).map Prod.fst =
      some EVENT_DOUBLE_TAP ∧
    (handleInterrupt (readyWorld (mockI2C [0x20]) 0xa6 ())).map Prod.fst =
      some EVENT_DOUBLE_TAP ∧
    EVENT_ACTIVITY ||| EVENT_SINGLE_TAP = EVENT_DOUBLE_TAP := by
  decide

/-! ## Enabling interrupts -/

theorem enableWrite_some (w : World σ) (i2c : I2C σ) (success : Bool) (reg val : Nat)
    (h : w.drv.gpI2c = some i2c) :
    enableWrite w success reg val =
      some (success && decide ((i2c.write w.bus w.drv.gAddress [reg, val]).1 = 0),
        (busWrite i2c w [reg, val]).2) := by
  by_cases hz : (i2c.write w.bus w.drv.gAddress [reg, val]).1 = 0
  · simp [enableWrite, h, busWrite, hz]
  · simp [enableWrite, h, busWrite, hz]

theorem handleInterrupt_ready_world (w : World σ) (i2c : I2C σ)
    (hready : w.drv.gReady = true) (hi : w.drv.gpI2c = some i2c) :
    (handleInterrupt w).map Prod.snd = some (statusRead i2c w) := by
  by_cases h1 : (busWrite i2c w [0x30]).1 = 0
  · by_cases h2 : (busRead i2c (busWrite i2c w [0x30]).2 [0] 1).1 = 0
    · simp only [handleInterrupt, hready, hi, h1, h2, statusRead, if_true, Option.map_some']
    · simp only [handleInterrupt, hready, hi, h1, h2, statusRead, if_true, if_false,
        Option.map_some']
  · simp only [handleInterrupt, hready, hi, h1, statusRead, if_true, if_false,
      Option.map_some']

theorem handleInterrupt_ready (w : World σ) (i2c : I2C σ)
    (hready : w.drv.gReady = true) (hi : w.drv.gpI2c = some i2c) :
    ∃ e, handleInterrupt w = some (e, statusRead i2c w) := by
  have h := handleInterrupt_ready_world w i2c hready hi
  rw [Option.map_eq_some'] at h
  obtain ⟨⟨e, w'⟩, h1, h2⟩ := h
  simp only at h2
  subst h2
  exact ⟨e, h1⟩

theorem busWrite_drv (i2c : I2C σ) (w : World σ) (d : List Nat) :
    (busWrite i2c w d).2.drv = w.drv := rfl

theorem busRead_drv (i2c : I2C σ) (w : World σ) (buf : List Nat) (n : Nat) :
    (busRead i2c w buf n).2.2.drv = w.drv := rfl

theorem sendWrites_drv (i2c : I2C σ) (ds : List (List Nat)) (w : World σ) :
    (sendWrites i2c w ds).drv = w.drv := by
  induction ds generalizing w with
  | nil => rfl
  | cons d ds ih => rw [sendWrites, ih, busWrite_drv]

theorem statusRead_drv (i2c : I2C σ) (w : World σ) : (statusRead i2c w).drv = w.drv := by
  unfold statusRead
  split_ifs <;> rfl

theorem sendWrites_txns (i2c : I2C σ) (ds : List (List Nat)) (w : World σ) :
    (sendWrites i2c w ds).txns = w.txns ++ ds.map (Txn.write w.drv.gAddress) := by
  induction ds generalizing w with
  | nil => simp [sendWrites]
  | cons d ds ih =>
    rw [sendWrites, ih, busWrite_drv]
    simp [World.txns, busWrite]

theorem statusRead_txns (i2c : I2C σ) (w : World σ) :
    (statusRead i2c w).txns = w.txns ++ statusTxns i2c w.drv.gAddress w.bus := by
  unfold statusRead statusTxns
  by_cases h : (i2c.write w.bus w.drv.gAddress [0x30]).1 = 0
  · simp [busWrite, busRead, World.txns, h]
  · simp [busWrite, World.txns, h]

/-- On a ready driver `enableInterrupts` sends the first four configuration
writes, performs the interrupt-status read, sends the last two configuration
writes, and returns the conjunction of the six write statuses. -/
theorem enableInterrupts_ready (w : World σ) (i2c : I2C σ)
    (hready : w.drv.gReady = true) (hi : w.drv.gpI2c = some i2c) :
    ∃ r, enableInterrupts w = some (r,
        sendWrites i2c (statusRead i2c (sendWrites i2c w (configWrites.take 4)))
          (configWrites.drop 4)) ∧
      (r = true ↔
        (∀ x ∈ writeStatuses i2c w.drv.gAddress w.bus (configWrites.take 4), x = 0) ∧
        (∀ x ∈ writeStatuses i2c w.drv.gAddress
          (statusRead i2c (sendWrites i2c w (configWrites.take 4))).bus (configWrites.drop 4),
          x = 0)) := by
  obtain ⟨e, he⟩ := handleInterrupt_ready (sendWrites i2c w (configWrites.take 4)) i2c
    (by rw [sendWrites_drv]; exact hready) (by rw [sendWrites_drv]; exact hi)
  obtain ⟨⟨p, a, r⟩, b, l⟩ := w
  simp only at hready hi
  subst hready hi
  simp only [sendWrites, configWrites, List.take, List.drop] at he ⊢
  simp only [enableInterrupts, if_true, Option.bind_eq_bind]
  rw [enableWrite_some _ i2c _ _ _ rfl]
  simp only [Option.some_bind]
  rw [enableWrite_some _ i2c _ _ _ rfl]
  simp only [Option.some_bind]
  rw [enableWrite_some _ i2c _ _ _ rfl]
  simp only [Option.some_bind]
  rw [enableWrite_some _ i2c _ _ _ rfl]
  simp only [Option.some_bind]
  rw [he]
  simp only [Option.some_bind]
  rw [enableWrite_some _ i2c _ _ _ (by rw [statusRead_drv]; rfl)]
  simp only [Option.some_bind]
  rw [enableWrite_some _ i2c _ _ _ (by rw [busWrite_drv, statusRead_drv]; rfl)]
  simp only [Option.some_bind]
  refine ⟨_, rfl, ?_⟩
  simp [writeStatuses, busWrite, statusRead_drv, and_assoc]

/-- C11: on a ready driver, whatever the transport answers, `enableInterrupts`
issues the same six two-byte writes as `init`, in the same order, none
skipped; the interrupt-status read of register `0x30` (one write of `[0x30]`
and, if acknowledged, a 1-byte read) comes after the interrupt-disable write
(and the three writes that follow it) and before the interrupt-enable write.
The result is true exactly when the six writes all return status `0`; the
status of the interrupt-status read does not enter into it. -/
theorem enableInterrupts_six_writes (w : World σ) (i2c : I2C σ)
    (hready : w.drv.gReady = true) (hi : w.drv.gpI2c = some i2c) :
    ∃ r w', enableInterrupts w = some (r, w') ∧
      w'.txns = w.txns ++
        [Txn.write w.drv.gAddress [0x2e, 0x00], Txn.write w.drv.gAddress [0x24, 0x10],
         Txn.write w.drv.gAddress [0x27, 0xf0], Txn.write w.drv.gAddress [0x2c, 0x07]] ++
        statusTxns i2c w.drv.gAddress (sendWrites i2c w (configWrites.take 4)).bus ++
        [Txn.write w.drv.gAddress [0x2e, 0x10], Txn.write w.drv.gAddress [0x2d, 0x08]] ∧
      [[0x2e, 0x00], [0x24, 0x10], [0x27, 0xf0], [0x2c, 0x07]] ++ [[0x2e, 0x10], [0x2d, 0x08]]
        = configWrites ∧
      (r = true ↔
        (∀ x ∈ writeStatuses i2c w.drv.gAddress w.bus (configWrites.take 4), x = 0) ∧
        (∀ x ∈ writeStatuses i2c w.drv.gAddress
          (statusRead i2c (sendWrites i2c w (configWrites.take 4))).bus (configWrites.drop 4),
          x = 0)) := by
  obtain ⟨r, hr, hiff⟩ := enableInterrupts_ready w i2c hready hi
  refine ⟨r, _, hr, ?_, rfl, hiff⟩
  rw [sendWrites_txns, statusRead_txns, sendWrites_txns, statusRead_drv, sendWrites_drv]
  simp [configWrites]

/-- Witness for C11: the interrupt-enable write (transaction 7) is refused,
and so is the register-address write of the status read (transaction 5). -/
theorem enableInterrupts_six_writes_witness :
    ∃ r w', enableInterrupts (readyWorld (scriptI2C [0]) 0xa6 [0, 0, 0, 0, 1, 1]) =
        some (r, w') ∧
      w'.txns = (readyWorld (scriptI2C [0]) 0xa6 [0, 0, 0, 0, 1, 1]).txns ++
        [Txn.write 0xa6 [0x2e, 0x00], Txn.write 0xa6 [0x24, 0x10],
         Txn.write 0xa6 [0x27, 0xf0], Txn.write 0xa6 [0x2c, 0x07]] ++
        statusTxns (scriptI2C [0]) 0xa6
          (sendWrites (scriptI2C [0]) (readyWorld (scriptI2C [0]) 0xa6 [0, 0, 0, 0, 1, 1])
            (configWrites.take 4)).bus ++
        [Txn.write 0xa6 [0x2e, 0x10], Txn.write 0xa6 [0x2d, 0x08]] ∧
      [[0x2e, 0x00], [0x24, 0x10], [0x27, 0xf0], [0x2c, 0x07]] ++ [[0x2e, 0x10], [0x2d, 0x08]]
        = configWrites ∧
      (r = true ↔
        (∀ x ∈ writeStatuses (scriptI2C [0]) 0xa6 [0, 0, 0, 0, 1, 1] (configWrites.take 4),
          x = 0) ∧
        (∀ x ∈ writeStatuses (scriptI2C [0]) 0xa6
          (statusRead (scriptI2C [0])
            (sendWrites (scriptI2C [0]) (readyWorld (scriptI2C [0]) 0xa6 [0, 0, 0, 0, 1, 1])
              (configWrites.take 4))).bus (configWrites.drop 4),
          x = 0)) :=
  enableInterrupts_six_writes (readyWorld (scriptI2C [0]) 0xa6 [0, 0, 0, 0, 1, 1])
    (scriptI2C [0]) rfl rfl

/-- An evaluation of `enableInterrupts` on a transport that refuses the
status read and the interrupt-enable write: seven transactions, result
false. -/
theorem enableInterrupts_example :
    (enableInterrupts (readyWorld (scriptI2C [0]) 0xa6 [0, 0, 0, 0, 1, 1])).map
        (fun r => (r.1, r.2.txns)) =
      some (false, [Txn.write 0xa6 [0x2e, 0x00], Txn.write 0xa6 [0x24, 0x10],
        Txn.write 0xa6 [0x27, 0xf0], Txn.write 0xa6 [0x2c, 0x07], Txn.write 0xa6 [0x30],
        Txn.write 0xa6 [0x2e, 0x10], Txn.write 0xa6 [0x2d, 0x08]]) := by
  decide

/-! ## Single-transaction operations and the register access primitive -/

/-- C14: on a ready driver `setActivityThreshold(t)`, `t` in `0..255`, issues
exactly one transaction, the write `[0x24, t]` with `t` unchanged, and
returns true exactly when that write returns status `0`. -/
theorem setActivityThreshold_single_write (w : World σ) (i2c : I2C σ) (t : Nat)
    (ht : t ≤ 255) (hready : w.drv.gReady = true) (hi : w.drv.gpI2c = some i2c) :
    ∃ r w', setActivityThreshold w t = some (r, w') ∧
      w'.txns = w.txns ++ [Txn.write w.drv.gAddress [0x24, t]] ∧
      (r = true ↔ (i2c.write w.bus w.drv.gAddress [0x24, t]).1 = 0) := by
  have hmod : t % 256 = t := Nat.mod_eq_of_lt (by omega)
  by_cases hz : (i2c.write w.bus w.drv.gAddress [0x24, t]).1 = 0
  · refine ⟨true, (busWrite i2c w [0x24, t]).2, ?_, ?_, ?_⟩
    · simp [setActivityThreshold, hready, hi, hmod, busWrite, hz]
    · simp [World.txns, busWrite]
    · simp [hz]
  · refine ⟨false, (busWrite i2c w [0x24, t]).2, ?_, ?_, ?_⟩
    · simp [setActivityThreshold, hready, hi, hmod, busWrite, hz]
    · simp [World.txns, busWrite]
    · simp [hz]

/-- Witness for C14: threshold `0xC8` on an acknowledging transport. -/
theorem setActivityThreshold_single_write_witness :
    ∃ r w', setActivityThreshold (readyWorld (mockI2C []) 0xa6 ()) 0xc8 = some (r, w') ∧
      w'.txns = (readyWorld (mockI2C []) 0xa6 ()).txns ++ [Txn.write 0xa6 [0x24, 0xc8]] ∧
      (r = true ↔ ((mockI2C []).write () 0xa6 [0x24, 0xc8]).1 = 0) :=
  setActivityThreshold_single_write (readyWorld (mockI2C []) 0xa6 ()) (mockI2C []) 0xc8
    (by decide) rfl rfl

/-- C15: on a ready driver `disableInterrupts` issues exactly one
transaction, the write `[0x2E, 0x00]`, and returns true exactly when that
write returns status `0`. -/
theorem disableInterrupts_single_write (w : World σ) (i2c : I2C σ)
    (hready : w.drv.gReady = true) (hi : w.drv.gpI2c = some i2c) :
    ∃ r w', disableInterrupts w = some (r, w') ∧
      w'.txns = w.txns ++ [Txn.write w.drv.gAddress [0x2e, 0x00]] ∧
      (r = true ↔ (i2c.write w.bus w.drv.gAddress [0x2e, 0x00]).1 = 0) := by
  by_cases hz : (i2c.write w.bus w.drv.gAddress [0x2e, 0x00]).1 = 0
  · refine ⟨true, (busWrite i2c w [0x2e, 0x00]).2, ?_, ?_, ?_⟩
    · simp [disableInterrupts, hready, hi, busWrite, hz]
    · simp [World.txns, busWrite]
    · simp [hz]
  · refine ⟨false, (busWrite i2c w [0x2e, 0x00]).2, ?_, ?_, ?_⟩
    · simp [disableInterrupts, hready, hi, busWrite, hz]
    · simp [World.txns, busWrite]
    · simp [hz]

/-- Witness for C15: the write is refused. -/
theorem disableInterrupts_single_write_witness :
    ∃ r w', disableInterrupts (readyWorld (scriptI2C []) 0xa6 [1]) = some (r, w') ∧
      w'.txns = (readyWorld (scriptI2C []) 0xa6 [1]).txns ++ [Txn.write 0xa6 [0x2e, 0x00]] ∧
      (r = true ↔ ((scriptI2C []).write [1] 0xa6 [0x2e, 0x00]).1 = 0) :=
  disableInterrupts_single_write (readyWorld (scriptI2C []) 0xa6 [1]) (scriptI2C []) rfl rfl

/-- C17: `getRegisters(reg, buffer, n)` without a transport fails and issues
nothing.  With a transport it first writes the single byte `reg` to the
device address; the `n`-byte read follows only when that write returned `0`
and a buffer was supplied (so a refused address write is followed by no
read); the result is true exactly when the address write returned `0` and
either no buffer was supplied or the read returned `0`. -/
theorem getRegisters_two_phase (w : World σ) (reg : Nat) (pValues : Option (List Nat))
    (n : Nat) :
    (w.drv.gpI2c = none → getRegisters w reg pValues n = (false, pValues, w)) ∧
    (∀ i2c, w.drv.gpI2c = some i2c →
      (getRegisters w reg pValues n).2.2.txns = w.txns ++
        (if (i2c.write w.bus w.drv.gAddress [reg]).1 = 0 ∧ pValues ≠ none then
          [Txn.write w.drv.gAddress [reg], Txn.read w.drv.gAddress n]
        else [Txn.write w.drv.gAddress [reg]]) ∧
      ((getRegisters w reg pValues n).1 = true ↔
        (i2c.write w.bus w.drv.gAddress [reg]).1 = 0 ∧
        (pValues = none ∨
          (i2c.read (i2c.write w.bus w.drv.gAddress [reg]).2 w.drv.gAddress n).1 = 0))) := by
  constructor
  · intro h
    simp [getRegisters, h]
  · intro i2c hi
    by_cases hw : (i2c.write w.bus w.drv.gAddress [reg]).1 = 0
    · cases pValues with
      | none => simp [getRegisters, hi, busWrite, hw, World.txns]
      | some buf =>
        by_cases hr :
          (i2c.read (i2c.write w.bus w.drv.gAddress [reg]).2 w.drv.gAddress n).1 = 0
        · simp [getRegisters, hi, busWrite, busRead, hw, hr, World.txns]
        · simp [getRegisters, hi, busWrite, busRead, hw, hr, World.txns]
    · simp [getRegisters, hi, busWrite, hw, World.txns]

/-- Witness for C17: a 6-byte read of register `0x32` whose read phase is
refused. -/
theorem getRegisters_two_phase_witness :
    (getRegisters (readyWorld (scriptI2C []) 0xa6 [0, 1]) 0x32 (some [0, 0, 0, 0, 0, 0])
        6).2.2.txns = (readyWorld (scriptI2C []) 0xa6 [0, 1]).txns ++
        (if ((scriptI2C []).write [0, 1] 0xa6 [0x32]).1 = 0 ∧
            some [0, 0, 0, 0, 0, 0] ≠ (none : Option (List Nat)) then
          [Txn.write 0xa6 [0x32], Txn.read 0xa6 6]
        else [Txn.write 0xa6 [0x32]]) ∧
      ((getRegisters (readyWorld (scriptI2C []) 0xa6 [0, 1]) 0x32 (some [0, 0, 0, 0, 0, 0])
          6).1 = true ↔
        ((scriptI2C []).write [0, 1] 0xa6 [0x32]).1 = 0 ∧
        (some [0, 0, 0, 0, 0, 0] = (none : Option (List Nat)) ∨
          ((scriptI2C []).read ((scriptI2C []).write [0, 1] 0xa6 [0x32]).2 0xa6 6).1 = 0)) :=
  (getRegisters_two_phase (readyWorld (scriptI2C []) 0xa6 [0, 1]) 0x32
    (some [0, 0, 0, 0, 0, 0]) 6).2 (scriptI2C []) rfl

/-! ## Frame: what the operations other than `init` leave alone -/

theorem extends_refl (w : World σ) : Extends w w :=
  ⟨rfl, [], by simp, by simp⟩

theorem extends_trans {w1 w2 w3 : World σ} (h12 : Extends w1 w2) (h23 : Extends w2 w3) :
    Extends w1 w3 := by
  obtain ⟨hd, e1, hl1, he1⟩ := h12
  obtain ⟨hd', e2, hl2, he2⟩ := h23
  refine ⟨hd'.trans hd, e1 ++ e2, by rw [hl2, hl1, List.append_assoc], ?_⟩
  intro e he
  rcases List.mem_append.mp he with h | h
  · exact he1 e h
  · have := he2 e h
    rw [hd] at this
    exact this

theorem extends_busWrite (i2c : I2C σ) (w : World σ) (d : List Nat)
    (hready : w.drv.gReady = true) : Extends w (busWrite i2c w d).2 := by
  refine ⟨rfl, [⟨w.drv.gReady, Txn.write w.drv.gAddress d⟩], rfl, ?_⟩
  intro e he
  simp only [List.mem_singleton] at he
  subst he
  exact ⟨hready, rfl⟩

theorem extends_busRead (i2c : I2C σ) (w : World σ) (buf : List Nat) (n : Nat)
    (hready : w.drv.gReady = true) : Extends w (busRead i2c w buf n).2.2 := by
  refine ⟨rfl, [⟨w.drv.gReady, Txn.read w.drv.gAddress n⟩], rfl, ?_⟩
  intro e he
  simp only [List.mem_singleton] at he
  subst he
  exact ⟨hready, rfl⟩

theorem extends_getRegisters (w : World σ) (reg : Nat) (pValues : Option (List Nat))
    (n : Nat) (hready : w.drv.gReady = true) :
    Extends w (getRegisters w reg pValues n).2.2 := by
  cases hi : w.drv.gpI2c with
  | none =>
    simp only [getRegisters, hi]
    exact extends_refl w
  | some i2c =>
    have h1 := extends_busWrite i2c w [reg] hready
    by_cases hw : (busWrite i2c w [reg]).1 = 0
    · cases pValues with
      | none =>
        simp only [getRegisters, hi, hw, if_true]
        exact h1
      | some buf =>
        have h2 := extends_busRead i2c (busWrite i2c w [reg]).2 buf n hready
        by_cases hr : (busRead i2c (busWrite i2c w [reg]).2 buf n).1 = 0
        · simp only [getRegisters, hi, hw, hr, if_true]
          exact extends_trans h1 h2
        · simp only [getRegisters, hi, hw, hr, if_true, if_false]
          exact extends_trans h1 h2
    · simp only [getRegisters, hi, hw, if_false]
      exact h1

theorem extends_sendWrites (i2c : I2C σ) (ds : List (List Nat)) (w : World σ)
    (hready : w.drv.gReady = true) : Extends w (sendWrites i2c w ds) := by
  induction ds generalizing w with
  | nil => exact extends_refl w
  | cons d ds ih =>
    rw [sendWrites]
    exact extends_trans (extends_busWrite i2c w d hready) (ih _ hready)

theorem extends_statusRead (i2c : I2C σ) (w : World σ) (hready : w.drv.gReady = true) :
    Extends w (statusRead i2c w) := by
  unfold statusRead
  split_ifs
  · exact extends_trans (extends_busWrite i2c w _ hready) (extends_busRead i2c _ _ _ hready)
  · exact extends_busWrite i2c w _ hready

theorem read_frame (w : World σ) (pX pY pZ : Option Int) (hwf : ReadyHasBus w) :
    ∃ r w', read w pX pY pZ = some (r, w') ∧ Extends w w' := by
  by_cases hready : w.drv.gReady = true
  · obtain ⟨i2c, hi⟩ := hwf hready
    have h1 := extends_busWrite i2c w [0x2d, 0x08] hready
    by_cases hm : (busWrite i2c w [0x2d, 0x08]).1 = 0
    · have h2 := extends_getRegisters (busWrite i2c w [0x2d, 0x08]).2 0x32
        (some [0x2d, 0x08, 0, 0, 0, 0]) 6 hready
      by_cases hg : (getRegisters (busWrite i2c w [0x2d, 0x08]).2 0x32
          (some [0x2d, 0x08, 0, 0, 0, 0]) 6).1 = true
      · simp only [read, hready, hi, hm, hg, if_true]
        exact ⟨_, _, rfl, extends_trans h1 h2⟩
      · simp only [read, hready, hi, hm, hg, if_true, if_false]
        exact ⟨_, _, rfl, extends_trans h1 h2⟩
    · simp only [read, hready, hi, hm, if_true, if_false]
      exact ⟨_, _, rfl, h1⟩
  · simp only [read, hready, if_false]
    exact ⟨_, _, rfl, extends_refl w⟩

theorem setActivityThreshold_frame (w : World σ) (t : Nat) (hwf : ReadyHasBus w) :
    ∃ r w', setActivityThreshold w t = some (r, w') ∧ Extends w w' := by
  by_cases hready : w.drv.gReady = true
  · obtain ⟨i2c, hi⟩ := hwf hready
    have h1 := extends_busWrite i2c w [0x24, t % 256] hready
    by_cases hm : (busWrite i2c w [0x24, t % 256]).1 = 0
    · simp only [setActivityThreshold, hready, hi, hm, if_true]
      exact ⟨_, _, rfl, h1⟩
    · simp only [setActivityThreshold, hready, hi, hm, if_true, if_false]
      exact ⟨_, _, rfl, h1⟩
  · simp only [setActivityThreshold, hready, if_false]
    exact ⟨_, _, rfl, extends_refl w⟩

theorem disableInterrupts_frame (w : World σ) (hwf : ReadyHasBus w) :
    ∃ r w', disableInterrupts w = some (r, w') ∧ Extends w w' := by
  by_cases hready : w.drv.gReady = true
  · obtain ⟨i2c, hi⟩ := hwf hready
    have h1 := extends_busWrite i2c w [0x2e, 0x00] hready
    by_cases hm : (busWrite i2c w [0x2e, 0x00]).1 = 0
    · simp only [disableInterrupts, hready, hi, hm, if_true]
      exact ⟨_, _, rfl, h1⟩
    · simp only [disableInterrupts, hready, hi, hm, if_true, if_false]
      exact ⟨_, _, rfl, h1⟩
  · simp only [disableInterrupts, hready, if_false]
    exact ⟨_, _, rfl, extends_refl w⟩

theorem areInterruptsEnabled_frame (w : World σ) :
    ∃ r w', areInterruptsEnabled w = some (r, w') ∧ Extends w w' := by
  by_cases hready : w.drv.gReady = true
  · have h1 := extends_getRegisters w 0x2e (some [0]) 1 hready
    simp only [areInterruptsEnabled, hready, if_true]
    split_ifs
    · exact ⟨_, _, rfl, h1⟩
    · exact ⟨_, _, rfl, h1⟩
    · exact ⟨_, _, rfl, h1⟩
  · simp only [areInterruptsEnabled, hready, if_false]
    exact ⟨_, _, rfl, extends_refl w⟩

theorem handleInterrupt_frame (w : World σ) (hwf : ReadyHasBus w) :
    ∃ r w', handleInterrupt w = some (r, w') ∧ Extends w w' := by
  by_cases hready : w.drv.gReady = true
  · obtain ⟨i2c, hi⟩ := hwf hready
    obtain ⟨e, he⟩ := handleInterrupt_ready w i2c hready hi
    exact ⟨e, _, he, extends_statusRead i2c w hready⟩
  · simp only [handleInterrupt, hready, if_false]
    exact ⟨_, _, rfl, extends_refl w⟩

theorem enableInterrupts_frame (w : World σ) (hwf : ReadyHasBus w) :
    ∃ r w', enableInterrupts w = some (r, w') ∧ Extends w w' := by
  by_cases hready : w.drv.gReady = true
  · obtain ⟨i2c, hi⟩ := hwf hready
    obtain ⟨r, hr, _⟩ := enableInterrupts_ready w i2c hready hi
    refine ⟨r, _, hr, ?_⟩
    have h1 := extends_sendWrites i2c (configWrites.take 4) w hready
    have hr1 : (sendWrites i2c w (configWrites.take 4)).drv.gReady = true := by
      rw [sendWrites_drv]; exact hready
    have h2 := extends_statusRead i2c _ hr1
    have hr2 : (statusRead i2c (sendWrites i2c w (configWrites.take 4))).drv.gReady = true := by
      rw [statusRead_drv]; exact hr1
    exact extends_trans (extends_trans h1 h2) (extends_sendWrites i2c _ _ hr2)
  · have hf : w.drv.gReady = false := by simpa using hready
    exact ⟨true, w, enableInterrupts_not_ready w hf, extends_refl w⟩

theorem readyHasBus_of_extends {w w' : World σ} (h : Extends w w') (hwf : ReadyHasBus w) :
    ReadyHasBus w' := by
  unfold ReadyHasBus
  rw [h.1]
  exact hwf

/-- A call other than `init` on a reachable state returns, leaves the members
alone and issues its transactions with `gReady` true. -/
theorem call_frame (w : World σ) (c : Call σ) (hc : c.isInit = false)
    (hwf : ReadyHasBus w) : ∃ w', call w c = some w' ∧ Extends w w' := by
  cases c with
  | init p a => simp [Call.isInit] at hc
  | read x y z =>
    obtain ⟨r, w', h, he⟩ := read_frame w x y z hwf
    exact ⟨w', by simp [call, h], he⟩
  | setActivityThreshold t =>
    obtain ⟨r, w', h, he⟩ := setActivityThreshold_frame w t hwf
    exact ⟨w', by simp [call, h], he⟩
  | areInterruptsEnabled =>
    obtain ⟨r, w', h, he⟩ := areInterruptsEnabled_frame w
    exact ⟨w', by simp [call, h], he⟩
  | enableInterrupts =>
    obtain ⟨r, w', h, he⟩ := enableInterrupts_frame w hwf
    exact ⟨w', by simp [call, h], he⟩
  | disableInterrupts =>
    obtain ⟨r, w', h, he⟩ := disableInterrupts_frame w hwf
    exact ⟨w', by simp [call, h], he⟩
  | handleInterrupt =>
    obtain ⟨r, w', h, he⟩ := handleInterrupt_frame w hwf
    exact ⟨w', by simp [call, h], he⟩

theorem not_readyHasBus (w : World σ) (h : ¬ ReadyHasBus w) :
    w.drv.gReady = true ∧ w.drv.gpI2c = none := by
  unfold ReadyHasBus at h
  push_neg at h
  refine ⟨h.1, ?_⟩
  cases hi : w.drv.gpI2c with
  | none => rfl
  | some i2c => exact absurd hi (h.2 i2c)

theorem read_sticky (w : World σ) (pX pY pZ : Option Int) (r : ReadResult) (w' : World σ)
    (h : read w pX pY pZ = some (r, w')) : w'.drv = w.drv := by
  by_cases hwf : ReadyHasBus w
  · obtain ⟨r2, w2, h2, he⟩ := read_frame w pX pY pZ hwf
    rw [h2] at h
    cases h
    exact he.1
  · obtain ⟨hr, hn⟩ := not_readyHasBus w hwf
    simp [read, hr, hn] at h

theorem setActivityThreshold_sticky (w : World σ) (t : Nat) (r : Bool) (w' : World σ)
    (h : setActivityThreshold w t = some (r, w')) : w'.drv = w.drv := by
  by_cases hwf : ReadyHasBus w
  · obtain ⟨r2, w2, h2, he⟩ := setActivityThreshold_frame w t hwf
    rw [h2] at h
    cases h
    exact he.1
  · obtain ⟨hr, hn⟩ := not_readyHasBus w hwf
    simp [setActivityThreshold, hr, hn] at h

theorem areInterruptsEnabled_sticky (w : World σ) (r : Bool) (w' : World σ)
    (h : areInterruptsEnabled w = some (r, w')) : w'.drv = w.drv := by
  obtain ⟨r2, w2, h2, he⟩ := areInterruptsEnabled_frame w
  rw [h2] at h
  cases h
  exact he.1

theorem enableInterrupts_sticky (w : World σ) (r : Bool) (w' : World σ)
    (h : enableInterrupts w = some (r, w')) : w'.drv = w.drv := by
  by_cases hwf : ReadyHasBus w
  · obtain ⟨r2, w2, h2, he⟩ := enableInterrupts_frame w hwf
    rw [h2] at h
    cases h
    exact he.1
  · obtain ⟨hr, hn⟩ := not_readyHasBus w hwf
    simp [enableInterrupts, enableWrite, hr, hn] at h

theorem disableInterrupts_sticky (w : World σ) (r : Bool) (w' : World σ)
    (h : disableInterrupts w = some (r, w')) : w'.drv = w.drv := by
  by_cases hwf : ReadyHasBus w
  · obtain ⟨r2, w2, h2, he⟩ := disableInterrupts_frame w hwf
    rw [h2] at h
    cases h
    exact he.1
  · obtain ⟨hr, hn⟩ := not_readyHasBus w hwf
    simp [disableInterrupts, hr, hn] at h

theorem handleInterrupt_sticky (w : World σ) (r : Nat) (w' : World σ)
    (h : handleInterrupt w = some (r, w')) : w'.drv = w.drv := by
  by_cases hwf : ReadyHasBus w
  · obtain ⟨r2, w2, h2, he⟩ := handleInterrupt_frame w hwf
    rw [h2] at h
    cases h
    exact he.1
  · obtain ⟨hr, hn⟩ := not_readyHasBus w hwf
    simp [handleInterrupt, hr, hn] at h

/-- C13: readiness is sticky.  From every state in which a ready driver has
its transport (every reachable state) each operation other than `init`
returns; and from every state whatever, whatever the transport answers, the
state an operation returns has the readiness flag and the stored bus address
it started with. -/
theorem readiness_sticky (w : World σ) (pX pY pZ : Option Int) (t : Nat) :
    (ReadyHasBus w →
      (read w pX pY pZ).isSome = true ∧ (setActivityThreshold w t).isSome = true ∧
      (areInterruptsEnabled w).isSome = true ∧ (enableInterrupts w).isSome = true ∧
      (disableInterrupts w).isSome = true ∧ (handleInterrupt w).isSome = true) ∧
    (∀ r w', read w pX pY pZ = some (r, w') →
      w'.drv.gReady = w.drv.gReady ∧ w'.drv.gAddress = w.drv.gAddress) ∧
    (∀ r w', setActivityThreshold w t = some (r, w') →
      w'.drv.gReady = w.drv.gReady ∧ w'.drv.gAddress = w.drv.gAddress) ∧
    (∀ r w', areInterruptsEnabled w = some (r, w') →
      w'.drv.gReady = w.drv.gReady ∧ w'.drv.gAddress = w.drv.gAddress) ∧
    (∀ r w', enableInterrupts w = some (r, w') →
      w'.drv.gReady = w.drv.gReady ∧ w'.drv.gAddress = w.drv.gAddress) ∧
    (∀ r w', disableInterrupts w = some (r, w') →
      w'.drv.gReady = w.drv.gReady ∧ w'.drv.gAddress = w.drv.gAddress) ∧
    (∀ r w', handleInterrupt w = some (r, w') →
      w'.drv.gReady = w.drv.gReady ∧ w'.drv.gAddress = w.drv.gAddress) := by
  refine ⟨fun hwf => ⟨?_, ?_, ?_, ?_, ?_, ?_⟩, ?_, ?_, ?_, ?_, ?_, ?_⟩
  · obtain ⟨r, w', h, _⟩ := read_frame w pX pY pZ hwf
    rw [h]; rfl
  · obtain ⟨r, w', h, _⟩ := setActivityThreshold_frame w t hwf
    rw [h]; rfl
  · obtain ⟨r, w', h, _⟩ := areInterruptsEnabled_frame w
    rw [h]; rfl
  · obtain ⟨r, w', h, _⟩ := enableInterrupts_frame w hwf
    rw [h]; rfl
  · obtain ⟨r, w', h, _⟩ := disableInterrupts_frame w hwf
    rw [h]; rfl
  · obtain ⟨r, w', h, _⟩ := handleInterrupt_frame w hwf
    rw [h]; rfl
  · intro r w' h
    rw [read_sticky w pX pY pZ r w' h]
    exact ⟨rfl, rfl⟩
  · intro r w' h
    rw [setActivityThreshold_sticky w t r w' h]
    exact ⟨rfl, rfl⟩
  · intro r w' h
    rw [areInterruptsEnabled_sticky w r w' h]
    exact ⟨rfl, rfl⟩
  · intro r w' h
    rw [enableInterrupts_sticky w r w' h]
    exact ⟨rfl, rfl⟩
  · intro r w' h
    rw [disableInterrupts_sticky w r w' h]
    exact ⟨rfl, rfl⟩
  · intro r w' h
    rw [handleInterrupt_sticky w r w' h]
    exact ⟨rfl, rfl⟩

/-- Witness for C13: a ready driver whose transport refuses every
transaction: `read` fails and the driver is still ready at `0xA6`. -/
theorem readiness_sticky_witness :
    ∃ r w', read (readyWorld (scriptI2C []) 0xa6 [1, 1, 1, 1, 1, 1, 1, 1]) (some 1) none none =
        some (r, w') ∧ r.success = false ∧ w'.drv.gReady = true ∧ w'.drv.gAddress = 0xa6 :=
  ⟨_, _, rfl, rfl,
    (readiness_sticky (readyWorld (scriptI2C []) 0xa6 [1, 1, 1, 1, 1, 1, 1, 1]) (some 1) none
      none 0).2.1 _ _ rfl⟩

/-! ## `init` and the state it starts from -/

theorem writeStep_prepend (i2c : I2C σ) (l : List Event) (w : World σ) (d : List Nat) :
    writeStep i2c (prependLog l w) d = prependLog l (writeStep i2c w d) := by
  simp [writeStep, prependLog]

theorem writeSteps_prepend (i2c : I2C σ) (l : List Event) (ds : List (List Nat))
    (w : World σ) :
    writeSteps i2c (prependLog l w) ds = prependLog l (writeSteps i2c w ds) := by
  induction ds generalizing w with
  | nil => rfl
  | cons d ds ih => rw [writeSteps, writeStep_prepend, ih, writeSteps]

/-- The result of `init` is computed from the arguments, the transport state
and nothing else: it is the result of `init` on a freshly constructed driver,
with the earlier log in front. -/
theorem init_canonical (w : World σ) (pI2c : Option (I2C σ)) (A : Nat) :
    init w pI2c A =
      (init { drv := construct, bus := w.bus, log := [] } pI2c A).map
        (fun x => (x.1, prependLog w.log x.2)) := by
  cases pI2c with
  | none =>
    rw [init_null, init_null]
    simp [initStart, prependLog]
  | some i2c =>
    by_cases hw : (i2c.write w.bus ((A <<< 1) % 256) [0x00]).1 = 0
    · by_cases hp : (i2c.read (i2c.write w.bus ((A <<< 1) % 256) [0x00]).2
          ((A <<< 1) % 256) 1).1 = 0 ∧ (storeBytes [0]
          (i2c.read (i2c.write w.bus ((A <<< 1) % 256) [0x00]).2 ((A <<< 1) % 256) 1).2.1
            1).headD 0 = 0xe5
      · rw [init_identity_pass w i2c A hw hp.1 hp.2,
          init_identity_pass { drv := construct, bus := w.bus, log := [] } i2c A hw hp.1 hp.2]
        have hid : identityDone i2c w ((A <<< 1) % 256) = prependLog w.log
            (identityDone i2c { drv := construct, bus := w.bus, log := [] }
              ((A <<< 1) % 256)) := by
          simp [identityDone, prependLog]
        rw [hid, writeSteps_prepend]
        rfl
      · rw [init_identity_reject w i2c A hw hp,
          init_identity_reject { drv := construct, bus := w.bus, log := [] } i2c A hw hp]
        simp [initStart, prependLog, busWrite, busRead]
    · rw [init_address_write_fail w i2c A hw,
        init_address_write_fail { drv := construct, bus := w.bus, log := [] } i2c A hw]
      simp [initStart, prependLog, busWrite]

/-- C18: the outcome of `init` does not depend on the state the driver is in.
From two starting states with any members `d1`, `d2` (ready or not, any
stored address and transport) and any earlier logs, the same arguments and
the same transport state give the same return value, the same final members
and transport state, and the same new transactions.  In particular, whatever
the prior state (so also on a driver that was ready), a failing identity read
leaves the driver not ready, and (so also after a failed `init`) a transport
that answers the identity read with `0xE5` and acknowledges the six writes
makes `init` succeed. -/
theorem init_ignores_prior_state (d1 d2 : AccelerometerAdxl345 σ) (b : σ)
    (l1 l2 : List Event) (pI2c : Option (I2C σ)) (A : Nat) :
    (∃ r w0, init { drv := d1, bus := b, log := l1 } pI2c A = some (r, prependLog l1 w0) ∧
      init { drv := d2, bus := b, log := l2 } pI2c A = some (r, prependLog l2 w0)) ∧
    (∀ i2c, pI2c = some i2c → ¬ identityPasses i2c ((A <<< 1) % 256) b →
      ∃ w', init { drv := d1, bus := b, log := l1 } pI2c A = some (false, w') ∧
        w'.drv.gReady = false) ∧
    (∀ i2c, pI2c = some i2c → identityPasses i2c ((A <<< 1) % 256) b →
      (∀ r ∈ writeStatuses i2c ((A <<< 1) % 256) (afterIdentity i2c ((A <<< 1) % 256) b)
        configWrites, r = 0) →
      ∃ w', init { drv := d1, bus := b, log := l1 } pI2c A = some (true, w') ∧
        w'.drv.gReady = true) := by
  refine ⟨?_, ?_, ?_⟩
  · obtain ⟨w0, h0⟩ := init_returns_flag { drv := construct, bus := b, log := [] } pI2c A
    refine ⟨w0.drv.gReady, w0, ?_, ?_⟩
    · rw [init_canonical]
      simp only [h0, Option.map_some']
    · rw [init_canonical]
      simp only [h0, Option.map_some']
  · intro i2c hp hfail
    subst hp
    by_cases hw : (i2c.write b ((A <<< 1) % 256) [0x00]).1 = 0
    · exact ⟨_, init_identity_reject { drv := d1, bus := b, log := l1 } i2c A hw
        (fun h => hfail ⟨hw, h.1, h.2⟩), rfl⟩
    · exact ⟨_, init_address_write_fail { drv := d1, bus := b, log := l1 } i2c A hw, rfl⟩
  · intro i2c hp hpass hall
    subst hp
    have hinit := init_identity_pass { drv := d1, bus := b, log := l1 } i2c A hpass.1
      hpass.2.1 hpass.2.2
    have hready : (writeSteps i2c (identityDone i2c { drv := d1, bus := b, log := l1 }
        ((A <<< 1) % 256)) configWrites).drv.gReady = true := by
      rw [writeSteps_gReady]
      exact ⟨rfl, hall⟩
    refine ⟨_, ?_, hready⟩
    rw [hinit, hready]

/-- Witness for C18: `init` on a driver that was ready, with a transport that
now refuses the register-address write of the identity read. -/
theorem init_ignores_prior_state_witness :
    ∃ w', init (readyWorld (scriptI2C [0xe5]) 0xa6 [1]) (some (scriptI2C [0xe5])) 0x53 =
        some (false, w') ∧ w'.drv.gReady = false :=
  (init_ignores_prior_state (readyWorld (scriptI2C [0xe5]) 0xa6 [1]).drv construct [1] [] []
    (some (scriptI2C [0xe5])) 0x53).2.1 (scriptI2C [0xe5]) rfl
    (by unfold identityPasses; decide)

/-- A retry of `init`: the first call meets a transport that refuses the
identity read, the second call, on the state the first one left, is answered
correctly and succeeds. -/
theorem init_retry_example :
    ((init (fresh [1]) (some (scriptI2C [0xe5])) 0x53).bind
        (fun r1 => (init r1.2 (some (scriptI2C [0xe5])) 0x53).map
          (fun r2 => (r1.1, r2.1, r2.2.drv.gReady)))) = some (false, true, true) := by
  decide

/-! ## The log of `init` -/

theorem writeSteps_log (i2c : I2C σ) (ds : List (List Nat)) (w : World σ) :
    (writeSteps i2c w ds).log =
      w.log ++ configEvents i2c w.drv.gAddress w.bus w.drv.gReady ds := by
  induction ds generalizing w with
  | nil => simp [writeSteps, configEvents]
  | cons d ds ih =>
    rw [writeSteps, ih]
    simp [writeStep, configEvents]

theorem configEvents_addr (i2c : I2C σ) (a : Nat) (ds : List (List Nat)) (s : σ) (rdy : Bool) :
    ∀ e ∈ configEvents i2c a s rdy ds, e.txn.addr = a := by
  induction ds generalizing s rdy with
  | nil => simp [configEvents]
  | cons d ds ih =>
    intro e he
    simp only [configEvents, List.mem_cons] at he
    rcases he with he | he
    · subst he; rfl
    · exact ih _ _ e he

/-- The `k`-th event of a run of configuration writes is the `k`-th write, and
it is issued with the flag true exactly when the flag was true at the start
and every earlier write of the run returned status `0`. -/
theorem configEvents_get (i2c : I2C σ) (a : Nat) (ds : List (List Nat)) (s : σ) (rdy : Bool)
    (k : Nat) (e : Event) (he : (configEvents i2c a s rdy ds)[k]? = some e) :
    ∃ d, ds[k]? = some d ∧ e.txn = Txn.write a d ∧
      (e.ready = true ↔ rdy = true ∧ ∀ r ∈ writeStatuses i2c a s (ds.take k), r = 0) := by
  induction ds generalizing s rdy k with
  | nil => simp [configEvents] at he
  | cons d ds ih =>
    cases k with
    | zero =>
      simp only [configEvents, List.getElem?_cons_zero, Option.some.injEq] at he
      subst he
      exact ⟨d, by simp, rfl, by simp [writeStatuses]⟩
    | succ k =>
      simp only [configEvents, List.getElem?_cons_succ] at he
      obtain ⟨d', hd, ht, hr⟩ := ih _ _ k he
      refine ⟨d', by simpa using hd, ht, ?_⟩
      rw [hr]
      simp [writeStatuses, and_assoc]

theorem initEvents_addr (pI2c : Option (I2C σ)) (a : Nat) (s : σ) :
    ∀ e ∈ initEvents pI2c a s, e.txn.addr = a := by
  intro e he
  cases pI2c with
  | none => simp [initEvents] at he
  | some i2c =>
    simp only [initEvents] at he
    split_ifs at he with h1 h2
    · simp only [List.mem_append, List.mem_cons, List.mem_singleton, List.not_mem_nil,
        or_false] at he
      rcases he with (he | he) | he
      · subst he; rfl
      · subst he; rfl
      · exact configEvents_addr i2c a _ _ _ e he
    · simp only [List.append_nil, List.mem_cons, List.mem_singleton, List.not_mem_nil,
        or_false] at he
      rcases he with he | he
      · subst he; rfl
      · subst he; rfl
    · simp only [List.mem_singleton] at he
      subst he; rfl

/-- `init` always returns; its log grows by `initEvents`, the members hold the
arguments, and a ready driver has its transport. -/
theorem init_log (w : World σ) (pI2c : Option (I2C σ)) (A : Nat) :
    ∃ r w', init w pI2c A = some (r, w') ∧
      w'.log = w.log ++ initEvents pI2c ((A <<< 1) % 256) w.bus ∧
      w'.drv.gpI2c = pI2c ∧ w'.drv.gAddress = (A <<< 1) % 256 ∧ ReadyHasBus w' := by
  cases pI2c with
  | none =>
    refine ⟨_, _, init_null w A, by simp [initStart, initEvents], rfl, rfl, ?_⟩
    intro h
    simp [initStart] at h
  | some i2c =>
    by_cases hw : (i2c.write w.bus ((A <<< 1) % 256) [0x00]).1 = 0
    · by_cases hp : (i2c.read (i2c.write w.bus ((A <<< 1) % 256) [0x00]).2
          ((A <<< 1) % 256) 1).1 = 0 ∧ (storeBytes [0]
          (i2c.read (i2c.write w.bus ((A <<< 1) % 256) [0x00]).2 ((A <<< 1) % 256) 1).2.1
            1).headD 0 = 0xe5
      · refine ⟨_, _, init_identity_pass w i2c A hw hp.1 hp.2, ?_, ?_, ?_, ?_⟩
        · rw [writeSteps_log]
          simp only [initEvents]
          rw [if_pos hw, if_pos hp]
          simp [identityDone, afterIdentity]
        · rw [writeSteps_gpI2c]; rfl
        · rw [writeSteps_gAddress]; rfl
        · intro _
          exact ⟨i2c, by rw [writeSteps_gpI2c]; rfl⟩
      · refine ⟨_, _, init_identity_reject w i2c A hw hp, ?_, rfl, rfl, fun _ => ⟨i2c, rfl⟩⟩
        simp only [initEvents]
        rw [if_pos hw, if_neg hp]
        simp [initStart, busWrite, busRead]
    · refine ⟨_, _, init_address_write_fail w i2c A hw, ?_, rfl, rfl, fun _ => ⟨i2c, rfl⟩⟩
      simp only [initEvents]
      rw [if_neg hw]
      simp [initStart, busWrite]

/-! ## Executions -/

theorem exec_cons_some (w w1 wEnd : World σ) (tr : List (Bool × Event)) (c : Call σ)
    (cs : List (Call σ)) (h1 : call w c = some w1) (h2 : exec w1 cs = some (wEnd, tr)) :
    exec w (c :: cs) = some (wEnd,
      (w1.log.drop w.log.length).map (fun e => (c.isInit, e)) ++ tr) := by
  simp [exec, h1, h2]

theorem drop_own_length (l ext : List Event) : (l ++ ext).drop l.length = ext := by
  simp

/-- A sequence of calls other than `init`, from a reachable state, returns;
the members are unchanged and every event is issued with `gReady` true, to
the stored bus address. -/
theorem exec_frame (cs : List (Call σ)) (hcs : ∀ c ∈ cs, c.isInit = false) (w : World σ)
    (hwf : ReadyHasBus w) :
    ∃ wEnd tr, exec w cs = some (wEnd, tr) ∧ wEnd.drv = w.drv ∧
      wEnd.log = w.log ++ tr.map Prod.snd ∧
      ∀ x ∈ tr, x.1 = false ∧ x.2.ready = true ∧ x.2.txn.addr = w.drv.gAddress := by
  induction cs generalizing w with
  | nil => exact ⟨w, [], rfl, rfl, by simp, by simp⟩
  | cons c cs ih =>
    have hc : c.isInit = false := hcs c (List.mem_cons_self _ _)
    obtain ⟨w1, h1, hd, ext, hl, hev⟩ := call_frame w c hc hwf
    have hwf1 : ReadyHasBus w1 := readyHasBus_of_extends ⟨hd, ext, hl, hev⟩ hwf
    obtain ⟨wEnd, tr, h2, hd2, hl2, hev2⟩ :=
      ih (fun c' hc' => hcs c' (List.mem_cons_of_mem _ hc')) w1 hwf1
    refine ⟨wEnd, _, exec_cons_some w w1 wEnd tr c cs h1 h2, hd2.trans hd, ?_, ?_⟩
    · rw [hl2, hl, drop_own_length]
      simp [List.map_map, Function.comp_def]
    · intro x hx
      rw [hl, drop_own_length] at hx
      rcases List.mem_append.mp hx with hx | hx
      · obtain ⟨e, he, rfl⟩ := List.mem_map.mp hx
        exact ⟨hc, hev e he⟩
      · have := hev2 x hx
        rw [hd] at this
        exact this

/-- Every sequence of calls, from a reachable state, returns in a reachable
state; the trace is what was added to the log, and an event issued with
`gReady` false was issued by `init`. -/
theorem exec_total (cs : List (Call σ)) (w : World σ) (hwf : ReadyHasBus w) :
    ∃ wEnd tr, exec w cs = some (wEnd, tr) ∧ ReadyHasBus wEnd ∧
      wEnd.log = w.log ++ tr.map Prod.snd ∧
      ∀ x ∈ tr, x.2.ready = false → x.1 = true := by
  induction cs generalizing w with
  | nil => exact ⟨w, [], rfl, hwf, by simp, by simp⟩
  | cons c cs ih =>
    by_cases hc : c.isInit = true
    · cases c with
      | init p A =>
        obtain ⟨r, w1, h1, hl, _, _, hwf1⟩ := init_log w p A
        obtain ⟨wEnd, tr, h2, hwf2, hl2, hev2⟩ := ih w1 hwf1
        have hcall : call w (Call.init p A) = some w1 := by simp [call, h1]
        refine ⟨wEnd, _, exec_cons_some w w1 wEnd tr _ cs hcall h2, hwf2, ?_, ?_⟩
        · rw [hl2, hl, drop_own_length]
          simp [List.map_map, Function.comp_def]
        · intro x hx _
          rcases List.mem_append.mp hx with hx | hx
          · obtain ⟨e, _, rfl⟩ := List.mem_map.mp hx
            rfl
          · exact hev2 x hx (by assumption)
      | _ => simp [Call.isInit] at hc
    · have hc' : c.isInit = false := by simpa using hc
      obtain ⟨w1, h1, hd, ext, hl, hev⟩ := call_frame w c hc' hwf
      have hwf1 : ReadyHasBus w1 := readyHasBus_of_extends ⟨hd, ext, hl, hev⟩ hwf
      obtain ⟨wEnd, tr, h2, hwf2, hl2, hev2⟩ := ih w1 hwf1
      refine ⟨wEnd, _, exec_cons_some w w1 wEnd tr c cs h1 h2, hwf2, ?_, ?_⟩
      · rw [hl2, hl, drop_own_length]
        simp [List.map_map, Function.comp_def]
      · intro x hx hnr
        rw [hl, drop_own_length] at hx
        rcases List.mem_append.mp hx with hx | hx
        · obtain ⟨e, he, rfl⟩ := List.mem_map.mp hx
          have := (hev e he).1
          simp only at hnr
          rw [this] at hnr
          exact absurd hnr (by decide)
        · exact hev2 x hx hnr

theorem fresh_readyHasBus (s : σ) : ReadyHasBus (fresh s) := by
  intro h
  simp [fresh, construct] at h

/-- The flags of the events of one call of `init`: the (at most two) events
of the identity read are issued with `gReady` false; the event at position
`k ≥ 2` is the configuration write number `k - 2`, issued with `gReady` true
exactly when all earlier configuration writes of the call returned `0`. -/
theorem initEvents_flags (pI2c : Option (I2C σ)) (a : Nat) (s : σ) (k : Nat) (e : Event)
    (he : (initEvents pI2c a s)[k]? = some e) :
    (k < 2 → e.ready = false ∧ [Txn.write a [0x00], Txn.read a 1][k]? = some e.txn) ∧
    (2 ≤ k → ∃ i2c d, pI2c = some i2c ∧ configWrites[k - 2]? = some d ∧
      e.txn = Txn.write a d ∧
      (e.ready = true ↔
        ∀ r ∈ writeStatuses i2c a (afterIdentity i2c a s) (configWrites.take (k - 2)), r = 0)) := by
  cases pI2c with
  | none => simp [initEvents] at he
  | some i2c =>
    simp only [initEvents] at he
    by_cases hw : (i2c.write s a [0x00]).1 = 0
    · rw [if_pos hw] at he
      match k, he with
      | 0, he =>
        simp only [List.cons_append, List.getElem?_cons_zero, Option.some.injEq] at he
        subst he
        exact ⟨fun _ => ⟨rfl, rfl⟩, fun h => absurd h (by decide)⟩
      | 1, he =>
        simp only [List.cons_append, List.getElem?_cons_succ, List.getElem?_cons_zero,
          Option.some.injEq] at he
        subst he
        exact ⟨fun _ => ⟨rfl, rfl⟩, fun h => absurd h (by decide)⟩
      | k + 2, he =>
        simp only [List.cons_append, List.getElem?_cons_succ, List.nil_append] at he
        refine ⟨fun h => absurd h (by omega), fun _ => ?_⟩
        split_ifs at he with hp
        · obtain ⟨d, hd, ht, hr⟩ := configEvents_get i2c a configWrites _ true k e he
          refine ⟨i2c, d, rfl, by simpa using hd, ht, ?_⟩
          rw [hr]
          simp
        · simp at he
    · rw [if_neg hw] at he
      match k, he with
      | 0, he =>
        simp only [List.getElem?_cons_zero, Option.some.injEq] at he
        subst he
        exact ⟨fun _ => ⟨rfl, rfl⟩, fun h => absurd h (by decide)⟩
      | k + 1, he => simp at he

/-- C12: for a 7-bit address `A` (`A ≤ 127`) `init` stores the bus address
`A << 1`, which is `2 * A` and fits in 8 bits, and every transaction issued
by `init` and by any sequence of later calls of the other operations is
addressed to `2 * A`; the default address `0x53` gives `0xA6`. -/
theorem bus_address_is_twice_A (w : World σ) (pI2c : Option (I2C σ)) (A : Nat)
    (ops : List (Call σ)) (hA : A ≤ 127) (hops : ∀ c ∈ ops, c.isInit = false) :
    (∃ r w1, init w pI2c A = some (r, w1) ∧ w1.drv.gAddress = 2 * A) ∧
    (∃ wEnd tr, exec w (Call.init pI2c A :: ops) = some (wEnd, tr) ∧
      wEnd.log = w.log ++ tr.map Prod.snd ∧ wEnd.drv.gAddress = 2 * A ∧
      ∀ x ∈ tr, x.2.txn.addr = 2 * A) ∧
    2 * A < 256 ∧ 2 * ACCELEROMETER_ADXL345_ADDRESS = 0xa6 := by
  have ha := shl_addr A hA
  obtain ⟨r, w1, h1, hl, _, hadr, hwf1⟩ := init_log w pI2c A
  rw [ha] at hl hadr
  obtain ⟨wEnd, tr, h2, hd2, hl2, hev2⟩ := exec_frame ops hops w1 hwf1
  have hcall : call w (Call.init pI2c A) = some w1 := by simp [call, h1]
  refine ⟨⟨r, w1, h1, hadr⟩, ⟨wEnd, _, exec_cons_some w w1 wEnd tr _ ops hcall h2, ?_, ?_, ?_⟩,
    by omega, by decide⟩
  · rw [hl2, hl, drop_own_length]
    simp [List.map_map, Function.comp_def]
  · rw [hd2, hadr]
  · intro x hx
    rw [hl, drop_own_length] at hx
    rcases List.mem_append.mp hx with hx | hx
    · obtain ⟨e, he, rfl⟩ := List.mem_map.mp hx
      exact initEvents_addr pI2c (2 * A) w.bus e he
    · rw [(hev2 x hx).2.2, hadr]

/-- Witness for C12: `init` at the default address followed by all six other
operations. -/
theorem bus_address_is_twice_A_witness :
    (∃ r w1, init (fresh ()) (some (mockI2C [0xe5])) 0x53 = some (r, w1) ∧
      w1.drv.gAddress = 2 * 0x53) ∧
    (∃ wEnd tr, exec (fresh ()) (Call.init (some (mockI2C [0xe5])) 0x53 ::
        [Call.read (some 0) none none, Call.setActivityThreshold 7, Call.areInterruptsEnabled,
         Call.enableInterrupts, Call.disableInterrupts, Call.handleInterrupt]) =
        some (wEnd, tr) ∧
      wEnd.log = (fresh ()).log ++ tr.map Prod.snd ∧ wEnd.drv.gAddress = 2 * 0x53 ∧
      ∀ x ∈ tr, x.2.txn.addr = 2 * 0x53) ∧
    2 * 0x53 < 256 ∧ 2 * ACCELEROMETER_ADXL345_ADDRESS = 0xa6 :=
  bus_address_is_twice_A (fresh ()) (some (mockI2C [0xe5])) 0x53
    [Call.read (some 0) none none, Call.setActivityThreshold 7, Call.areInterruptsEnabled,
     Call.enableInterrupts, Call.disableInterrupts, Call.handleInterrupt]
    (by decide) (by simp [Call.isInit])

/-! ## Transactions issued while the driver is not ready -/

/-- C16, as the code has it: along every execution from a reachable state,
an event issued with `gReady` false was issued by `init` (the other
operations issue nothing unless `gReady` is true).  Inside a call of `init`
the identity read is issued with `gReady` false, and the configuration write
number `k - 2` (position `k` of the call) is issued with `gReady` true exactly
when every earlier configuration write of that call returned `0`: the
configuration writes that follow a refused one are issued with `gReady`
false. -/
theorem not_ready_events_come_from_init (w : World σ) (cs : List (Call σ))
    (pI2c : Option (I2C σ)) (A : Nat) (hwf : ReadyHasBus w) :
    (∃ wEnd tr, exec w cs = some (wEnd, tr) ∧ wEnd.log = w.log ++ tr.map Prod.snd ∧
      ∀ x ∈ tr, x.2.ready = false → x.1 = true) ∧
    (∃ r w' ext, init w pI2c A = some (r, w') ∧ w'.log = w.log ++ ext ∧
      ∀ k e, ext[k]? = some e →
        (k < 2 → e.ready = false ∧
          [Txn.write ((A <<< 1) % 256) [0x00], Txn.read ((A <<< 1) % 256) 1][k]? = some e.txn) ∧
        (2 ≤ k → ∃ i2c d, pI2c = some i2c ∧ configWrites[k - 2]? = some d ∧
          e.txn = Txn.write ((A <<< 1) % 256) d ∧
          (e.ready = true ↔
            ∀ r ∈ writeStatuses i2c ((A <<< 1) % 256)
              (afterIdentity i2c ((A <<< 1) % 256) w.bus) (configWrites.take (k - 2)),
              r = 0))) := by
  constructor
  · obtain ⟨wEnd, tr, h, _, hl, hev⟩ := exec_total cs w hwf
    exact ⟨wEnd, tr, h, hl, hev⟩
  · obtain ⟨r, w', h, hl, _⟩ := init_log w pI2c A
    exact ⟨r, w', _, h, hl, fun k e he => initEvents_flags pI2c _ w.bus k e he⟩

/-- Witness for C16: a freshly constructed driver, `init` whose first
configuration write is refused, then `read` and `enableInterrupts`. -/
theorem not_ready_events_come_from_init_witness :
    (∃ wEnd tr, exec (fresh [0, 0, 1])
        [Call.init (some (scriptI2C [0xe5])) 0x53, Call.read none none none,
         Call.enableInterrupts] = some (wEnd, tr) ∧
      wEnd.log = (fresh [0, 0, 1]).log ++ tr.map Prod.snd ∧
      ∀ x ∈ tr, x.2.ready = false → x.1 = true) ∧
    (∃ r w' ext, init (fresh [0, 0, 1]) (some (scriptI2C [0xe5])) 0x53 = some (r, w') ∧
      w'.log = (fresh [0, 0, 1]).log ++ ext ∧
      ∀ k e, ext[k]? = some e →
        (k < 2 → e.ready = false ∧
          [Txn.write ((0x53 <<< 1) % 256) [0x00], Txn.read ((0x53 <<< 1) % 256) 1][k]? =
            some e.txn) ∧
        (2 ≤ k → ∃ i2c d, some (scriptI2C [0xe5]) = some i2c ∧ configWrites[k - 2]? = some d ∧
          e.txn = Txn.write ((0x53 <<< 1) % 256) d ∧
          (e.ready = true ↔
            ∀ r ∈ writeStatuses i2c ((0x53 <<< 1) % 256)
              (afterIdentity i2c ((0x53 <<< 1) % 256) (fresh [0, 0, 1]).bus)
              (configWrites.take (k - 2)),
              r = 0))) :=
  not_ready_events_come_from_init (fresh [0, 0, 1])
    [Call.init (some (scriptI2C [0xe5])) 0x53, Call.read none none none, Call.enableInterrupts]
    (some (scriptI2C [0xe5])) 0x53 (fresh_readyHasBus _)

/-- Counterexample for C16 as stated: `init` on a transport that acknowledges
the identity read and refuses the first configuration write still issues the
five remaining configuration writes, each of them with `gReady` false, and
none of them is part of the identity read. -/
theorem init_writes_while_not_ready :
    ∃ l, (exec (fresh [0, 0, 1]) [Call.init (some (scriptI2C [0xe5])) 0x53]).map
        (fun r => r.2.map Prod.snd) = some l ∧
      l = [⟨false, Txn.write 0xa6 [0x00]⟩, ⟨false, Txn.read 0xa6 1⟩,
           ⟨true, Txn.write 0xa6 [0x2e, 0x00]⟩, ⟨false, Txn.write 0xa6 [0x24, 0x10]⟩,
           ⟨false, Txn.write 0xa6 [0x27, 0xf0]⟩, ⟨false, Txn.write 0xa6 [0x2c, 0x07]⟩,
           ⟨false, Txn.write 0xa6 [0x2e, 0x10]⟩, ⟨false, Txn.write 0xa6 [0x2d, 0x08]⟩] ∧
      ¬ NotReadyOnlyIdentity l := by
  refine ⟨_, by decide, rfl, ?_⟩
  intro h
  obtain ⟨a, ha | ha⟩ := h ⟨false, Txn.write 0xa6 [0x24, 0x10]⟩ (by decide) rfl
  · simp at ha
  · simp at ha

/-! ## The activity threshold after `enableInterrupts` -/

theorem lastRegWrite_append (reg v : Nat) (l1 l2 : List Txn)
    (h : lastRegWrite reg l2 = some v) : lastRegWrite reg (l1 ++ l2) = some v := by
  induction l1 with
  | nil => simpa using h
  | cons t l1 ih => simp [lastRegWrite, ih]

theorem lastRegWrite_enable_tail (i2c : I2C σ) (a : Nat) (s : σ) :
    lastRegWrite 0x24
      ([Txn.write a [0x2e, 0x00], Txn.write a [0x24, 0x10], Txn.write a [0x27, 0xf0],
        Txn.write a [0x2c, 0x07]] ++ statusTxns i2c a s ++
        [Txn.write a [0x2e, 0x10], Txn.write a [0x2d, 0x08]]) = some 0x10 := by
  unfold statusTxns
  split_ifs <;> simp [lastRegWrite]

/-- C19: on a ready driver, for every threshold `t` in `0..255` and whatever
the transport answers, `setActivityThreshold(t)` followed by
`enableInterrupts()` logs the write `[0x24, t]` and later writes to register
`0x24` again: the last write to `0x24` in the log carries `0x10`.  On a
transport that acknowledges every write both calls return true. -/
theorem enableInterrupts_overrides_threshold (w : World σ) (i2c : I2C σ) (t : Nat)
    (ht : t ≤ 255) (hready : w.drv.gReady = true) (hi : w.drv.gpI2c = some i2c) :
    ∃ r1 w1 r2 w2, setActivityThreshold w t = some (r1, w1) ∧
      enableInterrupts w1 = some (r2, w2) ∧
      (∃ rest, w2.txns = w.txns ++ Txn.write w.drv.gAddress [0x24, t] :: rest ∧
        lastRegWrite 0x24 (Txn.write w.drv.gAddress [0x24, t] :: rest) = some 0x10) ∧
      lastRegWrite 0x24 w2.txns = some 0x10 ∧
      ((∀ s a d, (i2c.write s a d).1 = 0) → r1 = true ∧ r2 = true) := by
  have hmod : t % 256 = t := Nat.mod_eq_of_lt (by omega)
  have h1 : ∃ r1, setActivityThreshold w t = some (r1, (busWrite i2c w [0x24, t]).2) ∧
      ((∀ s a d, (i2c.write s a d).1 = 0) → r1 = true) := by
    by_cases hz : (busWrite i2c w [0x24, t]).1 = 0
    · exact ⟨true, by simp only [setActivityThreshold, hready, hi, hmod, hz, if_true],
        fun _ => rfl⟩
    · refine ⟨false, by simp only [setActivityThreshold, hready, hi, hmod, hz, if_true,
        if_false], fun hall => absurd (hall _ _ _) hz⟩
  obtain ⟨r1, hset, hr1⟩ := h1
  obtain ⟨r2, hen, hiff⟩ := enableInterrupts_ready (busWrite i2c w [0x24, t]).2 i2c hready hi
  have htx : (sendWrites i2c (statusRead i2c (sendWrites i2c (busWrite i2c w [0x24, t]).2
      (configWrites.take 4))) (configWrites.drop 4)).txns =
      w.txns ++ Txn.write w.drv.gAddress [0x24, t] ::
        ([Txn.write w.drv.gAddress [0x2e, 0x00], Txn.write w.drv.gAddress [0x24, 0x10],
          Txn.write w.drv.gAddress [0x27, 0xf0], Txn.write w.drv.gAddress [0x2c, 0x07]] ++
          statusTxns i2c w.drv.gAddress
            (sendWrites i2c (busWrite i2c w [0x24, t]).2 (configWrites.take 4)).bus ++
          [Txn.write w.drv.gAddress [0x2e, 0x10], Txn.write w.drv.gAddress [0x2d, 0x08]]) := by
    rw [sendWrites_txns, statusRead_txns, sendWrites_txns, statusRead_drv, sendWrites_drv]
    simp [configWrites, busWrite, World.txns]
  have hlast := lastRegWrite_enable_tail i2c w.drv.gAddress
    (sendWrites i2c (busWrite i2c w [0x24, t]).2 (configWrites.take 4)).bus
  refine ⟨r1, _, r2, _, hset, hen, ⟨_, htx, ?_⟩, ?_, ?_⟩
  · exact lastRegWrite_append 0x24 0x10 [Txn.write w.drv.gAddress [0x24, t]] _ hlast
  · rw [htx]
    have h := lastRegWrite_append 0x24 0x10
      (w.txns ++ [Txn.write w.drv.gAddress [0x24, t]]) _ hlast
    simpa using h
  · intro hall
    refine ⟨hr1 hall, ?_⟩
    rw [hiff]
    constructor
    · intro x hx
      simp only [writeStatuses, configWrites, List.take, hall] at hx
      simpa using hx
    · intro x hx
      simp only [writeStatuses, configWrites, List.drop, hall] at hx
      simpa using hx

/-- Witness for C19: threshold `0x40` on an acknowledging transport. -/
theorem enableInterrupts_overrides_threshold_witness :
    ∃ r1 w1 r2 w2, setActivityThreshold (readyWorld (mockI2C [0]) 0xa6 ()) 0x40 =
        some (r1, w1) ∧
      enableInterrupts w1 = some (r2, w2) ∧
      (∃ rest, w2.txns = (readyWorld (mockI2C [0]) 0xa6 ()).txns ++
          Txn.write 0xa6 [0x24, 0x40] :: rest ∧
        lastRegWrite 0x24 (Txn.write 0xa6 [0x24, 0x40] :: rest) = some 0x10) ∧
      lastRegWrite 0x24 w2.txns = some 0x10 ∧
      ((∀ s a d, ((mockI2C [0]).write s a d).1 = 0) → r1 = true ∧ r2 = true) :=
  enableInterrupts_overrides_threshold (readyWorld (mockI2C [0]) 0xa6 ()) (mockI2C [0]) 0x40
    (by decide) rfl rfl

/-- The log of `setActivityThreshold(0x40)` followed by `enableInterrupts()`
on an acknowledging transport. -/
theorem threshold_then_enable_example :
    ((setActivityThreshold (readyWorld (mockI2C [0]) 0xa6 ()) 0x40).bind
        (fun r1 => (enableInterrupts r1.2).map
          (fun r2 => (r1.1, r2.1, r2.2.txns, lastRegWrite 0x24 r2.2.txns)))) =
      some (true, true,
        [Txn.write 0xa6 [0x24, 0x40], Txn.write 0xa6 [0x2e, 0x00], Txn.write 0xa6 [0x24, 0x10],
         Txn.write 0xa6 [0x27, 0xf0], Txn.write 0xa6 [0x2c, 0x07], Txn.write 0xa6 [0x30],
         Txn.read 0xa6 1, Txn.write 0xa6 [0x2e, 0x10], Txn.write 0xa6 [0x2d, 0x08]],
        some 0x10) := by
  decide

end Adxl345
